import Mathlib

/-!
# Chef Tools: unit conversion, shopping-list aggregation and price resolution

A shallow embedding of the engine of `src/script.js` and the properties its
specification states about it: from the Menu Planner `convertAmount`,
`computeShoppingData`, `generateShoppingList`, `convertPricePerUnit`,
`updatePriceForRow` and `updateCatalogFromRow`, from the Ingredient Converter
`roundTo` and `convertRow`.

Numbers are rationals: the factor tables are read as exact decimals and
JavaScript's floating-point rounding is not modelled.  JavaScript objects used
as maps (`agg`, `ingredientCatalog`, `densities`) are association lists of
their own properties in insertion order, the order `Object.keys` yields for
keys that are not array indices.  For `agg` the properties a fresh object
inherits from `Object.prototype` are modelled as well
(`OBJECT_PROTOTYPE_KEYS`); for `ingredientCatalog` and `densities` they are
not.
-/

set_option autoImplicit false

namespace MenuPlanner

/-! ## Units and the factor tables (script.js 68-75) -/

/-- The nine unit names of `ALL_UNITS`, in the order of that array. -/
inductive UnitId where
  | Pounds | Ounces | Grams | Kilograms
  | Liters | Milliliters | Cups
  | Bag | Case
  deriving DecidableEq, Repr

/-- The unit name as the string the source uses as object key and in
template literals. -/
def UnitId.name : UnitId → String
  | .Pounds => "Pounds"
  | .Ounces => "Ounces"
  | .Grams => "Grams"
  | .Kilograms => "Kilograms"
  | .Liters => "Liters"
  | .Milliliters => "Milliliters"
  | .Cups => "Cups"
  | .Bag => "Bag"
  | .Case => "Case"

/-- The table `WEIGHT_UNIT_GRAMS`; `none` is the `undefined` of a missing key. -/
def WEIGHT_UNIT_GRAMS : UnitId → Option ℚ
  | .Pounds => some 453.592
  | .Ounces => some 28.3495
  | .Grams => some 1
  | .Kilograms => some 1000
  | _ => none

/-- The table `VOLUME_UNIT_ML`; `none` is the `undefined` of a missing key. -/
def VOLUME_UNIT_ML : UnitId → Option ℚ
  | .Liters => some 1000
  | .Milliliters => some 1
  | .Cups => some 240
  | _ => none

/-- The array `UNCONVERTIBLE_UNITS`. -/
def UNCONVERTIBLE_UNITS : List UnitId := [.Bag, .Case]

/-- The array `ALL_UNITS`: the keys of both tables, then the unconvertible units. -/
def ALL_UNITS : List UnitId :=
  [.Pounds, .Ounces, .Grams, .Kilograms, .Liters, .Milliliters, .Cups] ++ UNCONVERTIBLE_UNITS

/-- JavaScript truthiness of a table lookup: a number other than zero. -/
def truthy : Option ℚ → Bool
  | some v => v != 0
  | none => false

/-- The number read from a table entry already known to be truthy. -/
def num : Option ℚ → ℚ
  | some v => v
  | none => 0

/-! ## Conversions (script.js 270-281 and 324-335) -/

/-- The function `convertAmount`; `none` is the `null` returned for
incompatible units. -/
def convertAmount (amount : ℚ) (fromUnit toUnit : UnitId) : Option ℚ :=
  if fromUnit = toUnit then some amount
  else if truthy (WEIGHT_UNIT_GRAMS fromUnit) && truthy (WEIGHT_UNIT_GRAMS toUnit) then
    let grams := amount * num (WEIGHT_UNIT_GRAMS fromUnit)
    some (grams / num (WEIGHT_UNIT_GRAMS toUnit))
  else if truthy (VOLUME_UNIT_ML fromUnit) && truthy (VOLUME_UNIT_ML toUnit) then
    let ml := amount * num (VOLUME_UNIT_ML fromUnit)
    some (ml / num (VOLUME_UNIT_ML toUnit))
  else none

/-- The function `convertPricePerUnit`; `none` is the `null` returned for
incompatible units. -/
def convertPricePerUnit (price : ℚ) (fromUnit toUnit : UnitId) : Option ℚ :=
  if fromUnit = toUnit then some price
  else if truthy (WEIGHT_UNIT_GRAMS fromUnit) && truthy (WEIGHT_UNIT_GRAMS toUnit) then
    let pricePerGram := price / num (WEIGHT_UNIT_GRAMS fromUnit)
    some (pricePerGram * num (WEIGHT_UNIT_GRAMS toUnit))
  else if truthy (VOLUME_UNIT_ML fromUnit) && truthy (VOLUME_UNIT_ML toUnit) then
    let pricePerMl := price / num (VOLUME_UNIT_ML fromUnit)
    some (pricePerMl * num (VOLUME_UNIT_ML toUnit))
  else none

/-! ## JavaScript objects as ordered maps -/

/-- Property read `obj[key]` on an object used as a map; `none` is `undefined`. -/
def get {α β : Type} [DecidableEq α] : List (α × β) → α → Option β
  | [], _ => none
  | (k, v) :: rest, key => if k = key then some v else get rest key

/-- Property write `obj[key] = value`: an existing key keeps its place, a new
key goes last. -/
def assign {α β : Type} [DecidableEq α] : List (α × β) → α → β → List (α × β)
  | [], key, value => [(key, value)]
  | (k, v) :: rest, key, value =>
    if k = key then (k, value) :: rest else (k, v) :: assign rest key value

/-! ## Shopping list (script.js 282-302) -/

/-- An element of `ingredientList`.  `amount` is `none` for the `''` of an
empty input (and for `null` or `undefined`). -/
structure IngredientLine where
  dish : String
  ingredient : String
  amount : Option ℚ
  unit : UnitId
  deriving DecidableEq, Repr

/-- A value of the object `agg`: `{ amount, unit }`. -/
structure AggEntry where
  amount : ℚ
  unit : UnitId
  deriving DecidableEq, Repr

/-- An element of the array `computeShoppingData` returns:
`{ ingredient, totalAmount, unit }`. -/
structure ShoppingDatum where
  ingredient : String
  totalAmount : ℚ
  unit : UnitId
  deriving DecidableEq, Repr

/-- The template literal `${ingredient} (${unit})`. -/
def newKey (ingredient : String) (unit : UnitId) : String :=
  ingredient ++ " (" ++ unit.name ++ ")"

/-- The guard `!ingredient || amount === '' || amount == null` on script.js
287: whether the `forEach` callback returns at once on a line. -/
def skipped (item : IngredientLine) : Bool :=
  item.ingredient = "" || item.amount.isNone

/-- The names of the properties a fresh object `{}` inherits from
`Object.prototype`.  A read `agg[key]` under one of them yields the inherited
function (for `__proto__` the prototype itself), which is truthy and has no
property `unit`. -/
def OBJECT_PROTOTYPE_KEYS : List String :=
  ["constructor", "hasOwnProperty", "isPrototypeOf", "propertyIsEnumerable",
    "toLocaleString", "toString", "valueOf", "__proto__", "__defineGetter__",
    "__defineSetter__", "__lookupGetter__", "__lookupSetter__"]

/-- The body of the `forEach` callback of `computeShoppingData`, as a function
from the object `agg` before the call to `agg` after it.  The list holds the
own properties of `agg`.  When `agg` has no own property `key` and `key` is
inherited, `!agg[key]` is false, `agg[key].unit` is `undefined` and
`convertAmount(total, unit, undefined)` is `null` (the units differ and no
table has the key `undefined`), so the line is filed under the separate key.
That key ends in `")"` and is never an inherited name. -/
def aggStep (seats : ℚ) (agg : List (String × AggEntry)) (item : IngredientLine) :
    List (String × AggEntry) :=
  if item.ingredient = "" then agg
  else
    match item.amount with
    | none => agg
    | some amount =>
      let total := amount * seats
      let key := item.ingredient
      match get agg key with
      | none =>
        if key ∈ OBJECT_PROTOTYPE_KEYS then
          match get agg (newKey item.ingredient item.unit) with
          | some kept => assign agg (newKey item.ingredient item.unit) kept
          | none => assign agg (newKey item.ingredient item.unit) ⟨total, item.unit⟩
        else assign agg key ⟨total, item.unit⟩
      | some existing =>
        match convertAmount total item.unit existing.unit with
        | some converted => assign agg key ⟨existing.amount + converted, existing.unit⟩
        | none =>
          match get agg (newKey item.ingredient item.unit) with
          | some kept => assign agg (newKey item.ingredient item.unit) kept
          | none => assign agg (newKey item.ingredient item.unit) ⟨total, item.unit⟩

/-- The function `computeShoppingData`, with the globals `ingredientList` and
`expectedSeats` it reads as arguments. -/
def computeShoppingData (ingredientList : List IngredientLine) (expectedSeats : ℚ) :
    List ShoppingDatum :=
  (ingredientList.foldl (aggStep expectedSeats) []).map
    fun kv => ⟨kv.1, kv.2.amount, kv.2.unit⟩

/-! ## The specification's reading of units (spec section 3 and 4.1) -/

/-- The three unit families of the specification's data model. -/
inductive Family where
  | Mass | Volume | Count
  deriving DecidableEq, Repr

/-- The family of each unit, as the specification assigns it. -/
def family : UnitId → Family
  | .Pounds | .Ounces | .Grams | .Kilograms => .Mass
  | .Liters | .Milliliters | .Cups => .Volume
  | .Bag | .Case => .Count

/-- The canonical factor of the specification: grams for Mass, millilitres for
Volume; Count units have none (the value 0 is never used). -/
def factor : UnitId → ℚ
  | .Pounds => 453.592
  | .Ounces => 28.3495
  | .Grams => 1
  | .Kilograms => 1000
  | .Liters => 1000
  | .Milliliters => 1
  | .Cups => 240
  | .Bag | .Case => 0

/-- The reference definition `convert` of specification 4.1, following its
words: identity on equal units, `amount * factor(from) / factor(to)` when both
units are Mass or both are Volume, `Incompatible` (`none`) otherwise. -/
def convert (amount : ℚ) (fromUnit toUnit : UnitId) : Option ℚ :=
  if fromUnit = toUnit then some amount
  else if family fromUnit = .Mass ∧ family toUnit = .Mass then
    some (amount * factor fromUnit / factor toUnit)
  else if family fromUnit = .Volume ∧ family toUnit = .Volume then
    some (amount * factor fromUnit / factor toUnit)
  else none

/-! ## Price of a shopping row (script.js 303-364) -/

/-- An element of `shoppingList`, as `generateShoppingList` builds it.
`numUnits` is `none` for `''` and otherwise the integer the select yields;
`price` is `none` for `''` and otherwise the number its string denotes;
`typeOfUnit` is `none` for a missing unit. -/
structure ShoppingRow where
  ingredient : String
  displayName : String
  totalAmount : ℚ
  unit : UnitId
  numUnits : Option ℕ
  typeOfUnit : Option UnitId
  price : Option ℚ
  priceAuto : Bool
  deriving DecidableEq, Repr

/-- The number denoted by `x.toFixed(fractionDigits)`: the multiple of
`10^-fractionDigits` nearest to `x`, the one of larger magnitude when two are
equally near. -/
def toFixed (x : ℚ) (fractionDigits : ℕ) : ℚ :=
  if x < 0 then -((⌊-x * 10 ^ fractionDigits + 1 / 2⌋ : ℤ) : ℚ) / 10 ^ fractionDigits
  else ((⌊x * 10 ^ fractionDigits + 1 / 2⌋ : ℤ) : ℚ) / 10 ^ fractionDigits

/-- The loop `for (const u of Object.keys(entries))` of `updatePriceForRow`:
the first stored price that `convertPricePerUnit` converts to `unit`. -/
def firstConverted : List (UnitId × ℚ) → UnitId → Option ℚ
  | [], _ => none
  | (u, p) :: rest, unit =>
    match convertPricePerUnit p u unit with
    | some converted => some converted
    | none => firstConverted rest unit

/-- The function `updatePriceForRow`, as a function from the row
`shoppingList[index]` before the call to that row after it, with the global
`ingredientCatalog` as argument.  The mirror of the price in the input element
is left out. -/
def updatePriceForRow (ingredientCatalog : List (String × List (UnitId × ℚ)))
    (item : ShoppingRow) : ShoppingRow :=
  if !item.priceAuto && item.price.isSome then item
  else
    match item.numUnits, item.typeOfUnit with
    | some numUnits, some unit =>
      if numUnits = 0 then { item with price := none, priceAuto := true }
      else
        let pricePerUnit : Option ℚ :=
          match get ingredientCatalog item.ingredient with
          | some entries =>
            match get entries unit with
            | some p => some p
            | none => firstConverted entries unit
          | none => none
        match pricePerUnit with
        | some p => { item with price := some (toFixed (p * numUnits) 2), priceAuto := true }
        | none => { item with price := none, priceAuto := true }
    | _, _ => { item with price := none, priceAuto := true }

/-! ## Shopping rows (script.js 303-319) -/

/-- The method `indexOf` of a string, on the characters of the string and of the
pattern: the first position at which the pattern occurs, `none` for -1. -/
def indexOf (pattern : List Char) : List Char → Option ℕ
  | [] => if pattern = [] then some 0 else none
  | c :: cs =>
    if pattern.isPrefixOf (c :: cs) then some 0 else (indexOf pattern cs).map (· + 1)

/-- The constant `base` of `generateShoppingList`:
`ingredient.includes(' (') ? ingredient.slice(0, ingredient.indexOf(' (')) : ingredient`. -/
def base (ingredient : String) : String :=
  match indexOf [' ', '('] ingredient.data with
  | some i => String.mk (ingredient.data.take i)
  | none => ingredient

/-- The function `generateShoppingList`, as the value it gives the global
`shoppingList`. -/
def generateShoppingList (ingredientList : List IngredientLine) (expectedSeats : ℚ) :
    List ShoppingRow :=
  (computeShoppingData ingredientList expectedSeats).map fun row =>
    { ingredient := base row.ingredient
      displayName := row.ingredient
      totalAmount := row.totalAmount
      unit := row.unit
      numUnits := none
      typeOfUnit := some row.unit
      price := none
      priceAuto := true }

/-! ## Price catalog update (script.js 365-388) -/

/-- The array `Object.keys(table)` of a factor table, in the order of the
object literal (the order these units have in `ALL_UNITS`). -/
def keys (table : UnitId → Option ℚ) : List UnitId :=
  ALL_UNITS.filter fun u => (table u).isSome

/-- The read `ingredientCatalog[ingredient][unit]`, `none` when the ingredient
or the unit is not there. -/
def priceOf (ingredientCatalog : List (String × List (UnitId × ℚ))) (ingredient : String)
    (unit : UnitId) : Option ℚ :=
  match get ingredientCatalog ingredient with
  | some entries => get entries unit
  | none => none

/-- The function `updateCatalogFromRow`, from the global `ingredientCatalog`
and the row before the call to both after it.  The object
`ingredientCatalog[ingredient]` is mutated in place by the source; here its
final value is written once.  The result is `none` where `parseFloat(price) /
parseFloat(numUnits)` is not a finite number (empty price, empty or zero
numUnits) or the row has no typeOfUnit; the caller on script.js 411 excludes
the first. -/
def updateCatalogFromRow (ingredientCatalog : List (String × List (UnitId × ℚ)))
    (item : ShoppingRow) : Option (List (String × List (UnitId × ℚ)) × ShoppingRow) :=
  match item.typeOfUnit, item.price, item.numUnits with
  | some units, some price, some numUnits =>
    if numUnits = 0 then none
    else
      let entries0 : List (UnitId × ℚ) :=
        match get ingredientCatalog item.ingredient with
        | some entries => entries
        | none => []
      let pricePerUnit : ℚ := price / numUnits
      let entries1 := assign entries0 units pricePerUnit
      let entries2 :=
        if truthy (WEIGHT_UNIT_GRAMS units) then
          let pricePerGram := pricePerUnit / num (WEIGHT_UNIT_GRAMS units)
          (keys WEIGHT_UNIT_GRAMS).foldl
            (fun entries u => assign entries u (pricePerGram * num (WEIGHT_UNIT_GRAMS u))) entries1
        else if truthy (VOLUME_UNIT_ML units) then
          let pricePerMl := pricePerUnit / num (VOLUME_UNIT_ML units)
          (keys VOLUME_UNIT_ML).foldl
            (fun entries u => assign entries u (pricePerMl * num (VOLUME_UNIT_ML u))) entries1
        else assign entries1 units pricePerUnit
      some (assign ingredientCatalog item.ingredient entries2, { item with priceAuto := false })
  | _, _, _ => none

/-! ## Invariant of the aggregation of one ingredient -/

/-- What holds of the entries after the first one while lines of a single
ingredient `n`, first seen in unit `u0`, are folded: each is keyed
`"n (unit)"` for its own unit, that unit does not convert to `u0`, and no two
of them have the same unit. -/
def SplitInv (n : String) (u0 : UnitId) (rest : List (String × AggEntry)) : Prop :=
  (∀ kv ∈ rest, kv.1 = newKey n kv.2.unit ∧ kv.2.unit ≠ u0 ∧
      (family kv.2.unit ≠ family u0 ∨ family kv.2.unit = .Count)) ∧
    (rest.map fun kv => kv.2.unit).Nodup

end MenuPlanner

namespace Converter

/-! ## Ingredient converter (script.js 494-677) -/

/-- The constant `CUP_ML`. -/
def CUP_ML : ℚ := 236.588

/-- The constant `Number.EPSILON`, 2 to the power -52. -/
def EPSILON : ℚ := 1 / 2 ^ 52

/-- The function `Math.round`: the nearest integer, the larger one of two
equally near. -/
def mathRound (x : ℚ) : ℤ := ⌊x + 1 / 2⌋

/-- The function `roundTo(n, d)`, as the number its string denotes. -/
def roundTo (n : ℚ) (d : ℕ) : ℚ :=
  let f : ℚ := 10 ^ d
  MenuPlanner.toFixed ((mathRound ((n + EPSILON) * f) : ℚ) / f) d

/-- What `convertRow` computes and shows for a row: the four quantities and
the three rounded ones of the conversion cell. -/
structure Conversion where
  grams : ℚ
  cups : ℚ
  tbsp : ℚ
  tsp : ℚ
  cupsFmt : ℚ
  tbspFmt : ℚ
  tspFmt : ℚ
  deriving DecidableEq, Repr

/-- The variable `grams` of `convertRow`: the chain of tests on the unit
(script.js 653-658). -/
def grams (unit : String) (amount density : ℚ) : ℚ :=
  if unit = "g" then amount
  else if unit = "kg" then amount * 1000
  else if unit = "ml" then amount * (density / CUP_ML)
  else if unit = "l" then (amount * 1000) * (density / CUP_ML)
  else amount

/-- The function `convertRow`, with what it reads from the row and from the
global `densities` as arguments: the value of the ingredient select, the
result of `parseFloat(amountStr)` (`none` for `NaN`) and the value of the unit
select.  An error carries the text the conversion cell is given. -/
def convertRow (densities : List (String × ℚ)) (ingredient : String) (amount : Option ℚ)
    (unit : String) : Except String Conversion :=
  if ingredient = "" then .error "Pick ingredient"
  else
    match MenuPlanner.get densities ingredient with
    | none => .error "Unknown density — add it below"
    | some density =>
      if density = 0 then .error "Unknown density — add it below"
      else
        match amount with
        | none => .error "Enter amount"
        | some amount =>
          if amount ≤ 0 then .error "Enter amount"
          else
            let cups := grams unit amount density / density
            let tbsp := cups * 16
            let tsp := tbsp * 3
            .ok ⟨grams unit amount density, cups, tbsp, tsp,
              roundTo cups 3, roundTo tbsp 2, roundTo tsp 2⟩

/-! ## The specification's density conversion (spec section 4.4) -/

/-- The four units of `METRIC_UNITS`. -/
inductive MetricUnit where
  | g | kg | ml | l
  deriving DecidableEq, Repr

/-- The `value` of an element of `METRIC_UNITS`. -/
def MetricUnit.value : MetricUnit → String
  | .g => "g"
  | .kg => "kg"
  | .ml => "ml"
  | .l => "l"

/-- The grams of the reference definition: the amount itself for g, times 1000
for kg, `amount * density / 236.588` for ml and `amount * 1000 * density /
236.588` for l. -/
def gramsOf (amount : ℚ) (unit : MetricUnit) (density : ℚ) : ℚ :=
  match unit with
  | .g => amount
  | .kg => amount * 1000
  | .ml => amount * density / 236.588
  | .l => amount * 1000 * density / 236.588

/-- The reference definition `convertByDensity` of specification 4.4,
following its words: grams as above, `cups = grams / density`,
`tbsp = cups * 16`, `tsp = tbsp * 3`.  The result is (grams, cups, tbsp, tsp). -/
def convertByDensity (amount : ℚ) (unit : MetricUnit) (density : ℚ) : ℚ × ℚ × ℚ × ℚ :=
  let grams := gramsOf amount unit density
  let cups := grams / density
  let tbsp := cups * 16
  let tsp := tbsp * 3
  (grams, cups, tbsp, tsp)

end Converter

namespace MenuPlanner

/-! ## Conversion: theorems -/

/-- C1: `convertAmount` agrees with the reference definition `convert` on every
amount and every pair of units: identity on equal units (Count units
included), `x * factor(from) / factor(to)` within Mass and within Volume, and
the incompatible result in every other case. -/
theorem convertAmount_eq_convert (x : ℚ) (fromUnit toUnit : UnitId) :
    convertAmount x fromUnit toUnit = convert x fromUnit toUnit := by
  cases fromUnit <;> cases toUnit <;>
    simp [convertAmount, convert, family, factor, truthy, num,
      WEIGHT_UNIT_GRAMS, VOLUME_UNIT_ML] <;> norm_num

/-- The specification's families are the code's tables: a unit is Mass exactly
when `WEIGHT_UNIT_GRAMS` has it, Volume exactly when `VOLUME_UNIT_ML` has it,
Count exactly when it is listed in `UNCONVERTIBLE_UNITS`; the factor is the
table entry. -/
theorem family_eq_tables (u : UnitId) :
    (family u = .Mass ↔ WEIGHT_UNIT_GRAMS u = some (factor u)) ∧
    (family u = .Volume ↔ VOLUME_UNIT_ML u = some (factor u)) ∧
    (family u = .Count ↔ u ∈ UNCONVERTIBLE_UNITS) := by
  cases u <;> simp [family, factor, WEIGHT_UNIT_GRAMS, VOLUME_UNIT_ML, UNCONVERTIBLE_UNITS]

/-- Every factor of a Mass or Volume unit is non-zero. -/
theorem factor_ne_zero (u : UnitId) (h : family u ≠ .Count) : factor u ≠ 0 := by
  cases u <;> simp [family, factor] at h ⊢ <;> norm_num

/-- Closed form of `convertAmount` between two different units of one
convertible family. -/
theorem convertAmount_same_family (x : ℚ) (a b : UnitId)
    (hf : family a = family b) (hc : family a ≠ .Count) :
    convertAmount x a b = if a = b then some x else some (x * factor a / factor b) := by
  cases a <;> cases b <;>
    simp [convertAmount, family, factor, truthy, num,
      WEIGHT_UNIT_GRAMS, VOLUME_UNIT_ML] at hf hc ⊢ <;> norm_num

/-- Closed form of `convertPricePerUnit` between two units of one convertible
family. -/
theorem convertPricePerUnit_same_family (p : ℚ) (a b : UnitId)
    (hf : family a = family b) (hc : family a ≠ .Count) :
    convertPricePerUnit p a b = if a = b then some p else some (p / factor a * factor b) := by
  cases a <;> cases b <;>
    simp [convertPricePerUnit, family, factor, truthy, num,
      WEIGHT_UNIT_GRAMS, VOLUME_UNIT_ML] at hf hc ⊢ <;> norm_num

/-- Both conversions fail on two different units unless these share a
convertible family. -/
theorem convert_fails (x : ℚ) (a b : UnitId) (hab : a ≠ b)
    (h : family a ≠ family b ∨ family a = .Count) :
    convertAmount x a b = none ∧ convertPricePerUnit x a b = none := by
  cases a <;> cases b <;>
    simp [convertAmount, convertPricePerUnit, family, truthy,
      WEIGHT_UNIT_GRAMS, VOLUME_UNIT_ML] at hab h ⊢

/-- C2, as stated, fails: `Bag` and `Case` are both of the Count family, yet
`convertAmount` between them returns the incompatible result. -/
theorem convertAmount_count_family_counterexample :
    family .Bag = family .Case ∧ convertAmount 1 .Bag .Case = none ∧
      ¬ (∀ (x : ℚ) (a b : UnitId), (convertAmount x a b).isSome ↔ family a = family b) := by
  refine ⟨rfl, by simp [convertAmount, truthy, WEIGHT_UNIT_GRAMS, VOLUME_UNIT_ML], ?_⟩
  intro h
  have := (h 1 .Bag .Case).2 rfl
  simp [convertAmount, truthy, WEIGHT_UNIT_GRAMS, VOLUME_UNIT_ML] at this

/-- C2, amended: `convertAmount` succeeds exactly when the two units are equal,
or are both Mass, or are both Volume.  It never succeeds across family
boundaries, always succeeds within Mass and within Volume, and within Count
succeeds only on a unit and itself. -/
theorem convertAmount_isSome_iff (x : ℚ) (a b : UnitId) :
    (convertAmount x a b).isSome ↔
      (a = b ∨ (family a = family b ∧ family a ≠ .Count)) := by
  cases a <;> cases b <;>
    simp [convertAmount, family, truthy, WEIGHT_UNIT_GRAMS, VOLUME_UNIT_ML] <;> norm_num

/-- C3: converting an amount from `a` to `b` and back, for two units of one
convertible family (both Mass or both Volume), succeeds and returns the amount
itself, exactly. -/
theorem convertAmount_round_trip (x : ℚ) (a b : UnitId)
    (hf : family a = family b) (hc : family a ≠ .Count) :
    ∃ y, convertAmount x a b = some y ∧ convertAmount y b a = some x := by
  have hb : family b ≠ .Count := hf ▸ hc
  have ha0 := factor_ne_zero a hc
  have hb0 := factor_ne_zero b hb
  rw [convertAmount_same_family x a b hf hc]
  by_cases hab : a = b
  · subst hab
    exact ⟨x, by simp, by simp [convertAmount]⟩
  · refine ⟨x * factor a / factor b, by simp [hab], ?_⟩
    rw [convertAmount_same_family _ b a hf.symm hb]
    have hba : b ≠ a := fun h => hab h.symm
    simp only [hba, if_false, Option.some.injEq]
    field_simp

/-- C3 at a concrete input: 2.5 pounds to ounces and back. -/
theorem convertAmount_round_trip_witness :
    family .Pounds = family .Ounces ∧ family .Pounds ≠ .Count ∧
      ∃ y, convertAmount 2.5 .Pounds .Ounces = some y ∧
        convertAmount y .Ounces .Pounds = some 2.5 :=
  ⟨rfl, by decide, convertAmount_round_trip 2.5 .Pounds .Ounces rfl (by decide)⟩

/-- C4: `convertPricePerUnit` is incompatible on exactly the pairs of units on
which `convertAmount` is, and where both succeed the converted rate times the
converted quantity is the original rate times the original quantity. -/
theorem convertPricePerUnit_inverse (p q : ℚ) (a b : UnitId) :
    (convertPricePerUnit p a b = none ↔ convertAmount q a b = none) ∧
    (∀ r c, convertPricePerUnit p a b = some r → convertAmount q a b = some c →
      r * c = p * q) := by
  by_cases hab : a = b
  · subst hab
    simp [convertPricePerUnit, convertAmount]
  · by_cases h : family a = family b ∧ family a ≠ .Count
    · obtain ⟨hf, hc⟩ := h
      have ha0 := factor_ne_zero a hc
      have hb0 := factor_ne_zero b (hf ▸ hc)
      rw [convertAmount_same_family q a b hf hc, convertPricePerUnit_same_family p a b hf hc]
      simp only [hab, if_false, Option.some.injEq]
      refine ⟨by simp, ?_⟩
      rintro r c rfl rfl
      field_simp
      ring
    · have h2 : family a ≠ family b ∨ family a = .Count := by
        by_cases hf : family a = family b
        · right
          by_contra hc
          exact h ⟨hf, hc⟩
        · left; exact hf
      rw [(convert_fails q a b hab h2).1, (convert_fails p a b hab h2).2]
      simp

/-- C4 at a concrete input: 2 per pound and 3 pounds, expressed in ounces. -/
theorem convertPricePerUnit_inverse_witness :
    convertPricePerUnit 2 .Pounds .Ounces = some (1 / 8) ∧
      convertAmount 3 .Pounds .Ounces = some 48 ∧ (1 / 8 : ℚ) * 48 = 2 * 3 := by
  have h1 : convertPricePerUnit 2 .Pounds .Ounces = some (1 / 8) := by
    simp [convertPricePerUnit, truthy, num, WEIGHT_UNIT_GRAMS]; norm_num
  have h2 : convertAmount 3 .Pounds .Ounces = some 48 := by
    simp [convertAmount, truthy, num, WEIGHT_UNIT_GRAMS]; norm_num
  exact ⟨h1, h2, (convertPricePerUnit_inverse 2 3 .Pounds .Ounces).2 _ _ h1 h2⟩

/-! ## Shopping list: theorems -/

/-- Reading a key just written yields the value written. -/
theorem get_assign_self {α β : Type} [DecidableEq α] (m : List (α × β)) (k : α) (v : β) :
    get (assign m k v) k = some v := by
  induction m with
  | nil => simp [assign, get]
  | cons kv rest ih =>
    obtain ⟨k0, v0⟩ := kv
    by_cases h : k0 = k <;> simp [assign, get, h, ih]

/-- Writing a key that is not there appends it. -/
theorem assign_of_get_none {α β : Type} [DecidableEq α] (m : List (α × β)) (k : α) (v : β)
    (h : get m k = none) : assign m k v = m ++ [(k, v)] := by
  induction m with
  | nil => simp [assign]
  | cons kv rest ih =>
    obtain ⟨k0, v0⟩ := kv
    by_cases hk : k0 = k
    · simp [get, hk] at h
    · simp [get, hk] at h
      simp [assign, hk, ih h]

/-- Writing back the value a key already has changes nothing. -/
theorem assign_of_get_some {α β : Type} [DecidableEq α] (m : List (α × β)) (k : α) (v : β)
    (h : get m k = some v) : assign m k v = m := by
  induction m with
  | nil => simp [get] at h
  | cons kv rest ih =>
    obtain ⟨k0, v0⟩ := kv
    by_cases hk : k0 = k
    · simp [get, hk] at h
      simp [assign, hk, h]
    · simp [get, hk] at h
      simp [assign, hk, ih h]

/-- The disambiguated key is never the ingredient name itself. -/
theorem newKey_ne (ingredient : String) (unit : UnitId) : newKey ingredient unit ≠ ingredient := by
  intro h
  have hl := congrArg String.length h
  have h1 : ")".length = 1 := rfl
  have h2 : " (".length = 2 := rfl
  simp only [newKey, String.length_append, h1, h2] at hl
  omega

/-- A step on a line of the ingredient that owns the first entry, in a unit
that converts to that entry's unit, adds the converted amount to it. -/
theorem aggStep_head_merge (seats t a c : ℚ) (n d : String) (u0 u : UnitId)
    (rest : List (String × AggEntry)) (hn : n ≠ "")
    (hc : convertAmount (a * seats) u u0 = some c) :
    aggStep seats ((n, ⟨t, u0⟩) :: rest) ⟨d, n, some a, u⟩ = (n, ⟨t + c, u0⟩) :: rest := by
  simp [aggStep, hn, get, hc, assign]

/-- Folding lines of one ingredient and one unit into an object whose first
entry is that ingredient in that unit adds every scaled amount to it. -/
theorem foldl_same_unit (seats : ℚ) (n : String) (u : UnitId) (hn : n ≠ "")
    (lines : List IngredientLine)
    (h : ∀ l ∈ lines, l.ingredient = n ∧ l.unit = u ∧ l.amount.isSome = true) (t : ℚ) :
    lines.foldl (aggStep seats) [(n, ⟨t, u⟩)] =
      [(n, ⟨t + (lines.map fun l => l.amount.getD 0).sum * seats, u⟩)] := by
  induction lines generalizing t with
  | nil => simp
  | cons l ls ih =>
    obtain ⟨d, i, a, u1⟩ := l
    have hl := h _ (List.mem_cons_self _ _)
    simp only at hl
    obtain ⟨rfl, rfl, ha⟩ := hl
    obtain ⟨a, rfl⟩ := Option.isSome_iff_exists.mp ha
    have hls : ∀ l ∈ ls, l.ingredient = i ∧ l.unit = u1 ∧ l.amount.isSome = true :=
      fun l hl => h l (List.mem_cons_of_mem _ hl)
    rw [List.foldl_cons, aggStep_head_merge seats t a (a * seats) i d u1 u1 [] hn
      (by simp [convertAmount]), ih hls]
    simp [add_mul, add_assoc]

/-- Additivity away from the inherited names: lines that all name the same
non-blank ingredient, not the name of an inherited property, in the same unit
and with defined amounts, aggregate into exactly one entry, keyed by the
ingredient, in that unit, whose total is the sum of the amounts times the seat
multiplier. -/
theorem computeShoppingData_additive (seats : ℚ) (n : String) (u : UnitId)
    (lines : List IngredientLine) (hne : lines ≠ []) (hn : n ≠ "")
    (hp : n ∉ OBJECT_PROTOTYPE_KEYS)
    (h : ∀ l ∈ lines, l.ingredient = n ∧ l.unit = u ∧ l.amount.isSome = true) :
    computeShoppingData lines seats =
      [⟨n, (lines.map fun l => l.amount.getD 0).sum * seats, u⟩] := by
  cases lines with
  | nil => exact absurd rfl hne
  | cons l ls =>
    obtain ⟨d, i, a, u1⟩ := l
    have hl := h _ (List.mem_cons_self _ _)
    simp only at hl
    obtain ⟨rfl, rfl, ha⟩ := hl
    obtain ⟨a, rfl⟩ := Option.isSome_iff_exists.mp ha
    have hls : ∀ l ∈ ls, l.ingredient = i ∧ l.unit = u1 ∧ l.amount.isSome = true :=
      fun l hl => h l (List.mem_cons_of_mem _ hl)
    have h1 : aggStep seats [] ⟨d, i, some a, u1⟩ = [(i, ⟨a * seats, u1⟩)] := by
      simp [aggStep, hn, hp, get, assign]
    simp only [computeShoppingData, List.foldl_cons, h1, foldl_same_unit seats i u1 hn ls hls]
    simp [add_mul]

/-- The specification's scenario: seats 4 and the single line
`{Tomato, 0.3, Pounds}` give the single entry `{Tomato, 1.2, Pounds}`; and two
lines with amounts 0.3 and 0.5 give (0.3 + 0.5) * 4. -/
theorem computeShoppingData_additive_tomato :
    computeShoppingData [⟨"Salad", "Tomato", some 0.3, .Pounds⟩] 4 =
        [⟨"Tomato", 1.2, .Pounds⟩] ∧
      computeShoppingData
        [⟨"Salad", "Tomato", some 0.3, .Pounds⟩, ⟨"Soup", "Tomato", some 0.5, .Pounds⟩] 4 =
        [⟨"Tomato", (0.3 + 0.5) * 4, .Pounds⟩] := by
  constructor
  · have h := computeShoppingData_additive 4 "Tomato" .Pounds
      [⟨"Salad", "Tomato", some 0.3, .Pounds⟩] (by simp) (by decide) (by decide) (by simp)
    rw [h]
    norm_num
  · have h := computeShoppingData_additive 4 "Tomato" .Pounds
      [⟨"Salad", "Tomato", some 0.3, .Pounds⟩, ⟨"Soup", "Tomato", some 0.5, .Pounds⟩]
      (by simp) (by decide) (by decide) (by simp)
    rw [h]
    norm_num

/-- The first line of an ingredient creates its entry, unless its name is
inherited. -/
theorem aggStep_nil (seats a : ℚ) (n d : String) (u : UnitId) (hn : n ≠ "")
    (hp : n ∉ OBJECT_PROTOTYPE_KEYS) :
    aggStep seats [] ⟨d, n, some a, u⟩ = [(n, ⟨a * seats, u⟩)] := by
  simp [aggStep, hn, hp, get, assign]

/-- The first line of an ingredient whose name is inherited is filed under the
separate key. -/
theorem aggStep_nil_inherited (seats a : ℚ) (n d : String) (u : UnitId) (hn : n ≠ "")
    (hp : n ∈ OBJECT_PROTOTYPE_KEYS) :
    aggStep seats [] ⟨d, n, some a, u⟩ = [(newKey n u, ⟨a * seats, u⟩)] := by
  simp [aggStep, hn, hp, get, assign]

/-- The separate key is never the name of an inherited property: it ends in
`")"`. -/
theorem newKey_not_inherited (ingredient : String) (unit : UnitId) :
    newKey ingredient unit ∉ OBJECT_PROTOTYPE_KEYS := by
  intro h
  have hlast : (newKey ingredient unit).data.getLast? = some ')' := by
    have hd : (newKey ingredient unit).data =
        (ingredient.data ++ ' ' :: '(' :: unit.name.data) ++ [')'] := by
      simp [newKey, String.data_append]
    rw [hd, List.getLast?_append]
    rfl
  simp only [OBJECT_PROTOTYPE_KEYS, List.mem_cons, List.mem_singleton, List.not_mem_nil,
    or_false] at h
  rcases h with h | h | h | h | h | h | h | h | h | h | h | h <;>
    · rw [h] at hlast
      revert hlast
      decide

/-- C5 on the code: two lines of the ingredient named `toString`, 2 bags and 3
bags, with seat multiplier 1, give one entry keyed `"toString (Bag)"` with
total 2, not one entry keyed `"toString"` with total (2 + 3) * 1 = 5; already
the single line of 2 bags is filed under `"toString (Bag)"`. -/
theorem computeShoppingData_inherited_name :
    computeShoppingData
        [⟨"Soup", "toString", some 2, .Bag⟩, ⟨"Soup", "toString", some 3, .Bag⟩] 1 =
        [⟨"toString (Bag)", 2, .Bag⟩] ∧
      computeShoppingData [⟨"Soup", "toString", some 2, .Bag⟩] 1 =
        [⟨"toString (Bag)", 2, .Bag⟩] := by
  have hn : "toString" ≠ "" := by decide
  have hp : "toString" ∈ OBJECT_PROTOTYPE_KEYS := by decide
  have hk : newKey "toString" .Bag = "toString (Bag)" := by decide
  have hne : ¬ "toString (Bag)" = "toString" := by decide
  have h1 := aggStep_nil_inherited 1 2 "toString" "Soup" .Bag hn hp
  rw [hk] at h1
  have h2 : aggStep 1 [("toString (Bag)", ⟨2 * 1, .Bag⟩)] ⟨"Soup", "toString", some 3, .Bag⟩ =
      [("toString (Bag)", ⟨2 * 1, .Bag⟩)] := by
    simp [aggStep, hn, hp, get, hne, hk, assign]
  constructor
  · simp only [computeShoppingData, List.foldl_cons, List.foldl_nil, h1, h2]
    simp
  · simp only [computeShoppingData, List.foldl_cons, List.foldl_nil, h1]
    simp

/-- A step on a line of the ingredient that owns the first entry, in a unit
that does not convert to that entry's unit and has no entry of its own yet,
appends the separately keyed entry. -/
theorem aggStep_head_split (seats t a : ℚ) (n d : String) (u0 u : UnitId)
    (rest : List (String × AggEntry)) (hn : n ≠ "")
    (hc : convertAmount (a * seats) u u0 = none) (hg : get rest (newKey n u) = none) :
    aggStep seats ((n, ⟨t, u0⟩) :: rest) ⟨d, n, some a, u⟩ =
      (n, ⟨t, u0⟩) :: (rest ++ [(newKey n u, ⟨a * seats, u⟩)]) := by
  have hk : ¬ n = newKey n u := fun h => newKey_ne n u h.symm
  have hg1 : get ((n, (⟨t, u0⟩ : AggEntry)) :: rest) n = some ⟨t, u0⟩ := by simp [get]
  have hg2 : get ((n, (⟨t, u0⟩ : AggEntry)) :: rest) (newKey n u) = none := by
    simp [get, hk, hg]
  simp only [aggStep, hn, if_false, hg1, hc, hg2]
  rw [assign_of_get_none _ _ _ hg2]
  rfl

/-- A step on a line of the ingredient that owns the first entry, in a unit
that does not convert to that entry's unit and already has an entry of its
own, leaves the object as it is: the line's amount is not added anywhere. -/
theorem aggStep_head_drop (seats t a : ℚ) (n d : String) (u0 u : UnitId)
    (rest : List (String × AggEntry)) (kept : AggEntry) (hn : n ≠ "")
    (hc : convertAmount (a * seats) u u0 = none) (hg : get rest (newKey n u) = some kept) :
    aggStep seats ((n, ⟨t, u0⟩) :: rest) ⟨d, n, some a, u⟩ = (n, ⟨t, u0⟩) :: rest := by
  have hk : ¬ n = newKey n u := fun h => newKey_ne n u h.symm
  have hg1 : get ((n, (⟨t, u0⟩ : AggEntry)) :: rest) n = some ⟨t, u0⟩ := by simp [get]
  have hg2 : get ((n, (⟨t, u0⟩ : AggEntry)) :: rest) (newKey n u) = some kept := by
    simp [get, hk, hg]
  simp only [aggStep, hn, if_false, hg1, hc, hg2]
  exact assign_of_get_some _ _ _ hg2

/-- C6, as stated, fails on the blank ingredient name: both lines are skipped
and no entry at all is emitted. -/
theorem computeShoppingData_split_blank_counterexample :
    family .Pounds = .Mass ∧ family .Bag = .Count ∧
      computeShoppingData
        [⟨"Salad", "", some 1, .Pounds⟩, ⟨"Salad", "", some 2, .Bag⟩] 1 = [] := by
  refine ⟨rfl, rfl, ?_⟩
  simp [computeShoppingData, aggStep]

/-- C6, amended: for every non-blank ingredient name that is not the name of
an inherited property, one Mass-unit line and one Count-unit line of that
ingredient, in either order and with defined amounts, yield exactly two
entries with distinct keys: the first line under the ingredient name and the
second under `"<ingredient> (<unit>)"`, each with its own scaled amount and
unit. -/
theorem computeShoppingData_split (seats a b : ℚ) (n d1 d2 : String) (u1 u2 : UnitId)
    (hn : n ≠ "") (hp : n ∉ OBJECT_PROTOTYPE_KEYS)
    (hu : (family u1 = .Mass ∧ family u2 = .Count) ∨ (family u1 = .Count ∧ family u2 = .Mass)) :
    computeShoppingData [⟨d1, n, some a, u1⟩, ⟨d2, n, some b, u2⟩] seats =
        [⟨n, a * seats, u1⟩, ⟨newKey n u2, b * seats, u2⟩] ∧
      n ≠ newKey n u2 := by
  have hne : u2 ≠ u1 := by
    rintro rfl
    rcases hu with ⟨h1, h2⟩ | ⟨h1, h2⟩ <;> rw [h1] at h2 <;> exact absurd h2 (by decide)
  have hfam : family u2 ≠ family u1 ∨ family u2 = .Count := by
    rcases hu with ⟨h1, h2⟩ | ⟨h1, h2⟩
    · right; exact h2
    · left; rw [h1, h2]; decide
  have hc := (convert_fails (b * seats) u2 u1 hne hfam).1
  refine ⟨?_, fun h => newKey_ne n u2 h.symm⟩
  simp only [computeShoppingData, List.foldl_cons, List.foldl_nil,
    aggStep_nil seats a n d1 u1 hn hp]
  rw [aggStep_head_split seats (a * seats) b n d2 u1 u2 [] hn hc (by simp [get])]
  simp

/-- C6 at a concrete input: 2 pounds of rice and 1 bag of rice, for 3 seats. -/
theorem computeShoppingData_split_witness :
    computeShoppingData
        [⟨"Curry", "Rice", some 2, .Pounds⟩, ⟨"Pilaf", "Rice", some 1, .Bag⟩] 3 =
        [⟨"Rice", 2 * 3, .Pounds⟩, ⟨newKey "Rice" .Bag, 1 * 3, .Bag⟩] ∧
      "Rice" ≠ newKey "Rice" .Bag :=
  computeShoppingData_split 3 2 1 "Rice" "Curry" "Pilaf" .Pounds .Bag (by decide)
    (by decide) (Or.inl ⟨rfl, rfl⟩)

/-- After an ingredient's first line, every later line of it in a unit that
does not convert to the first unit and already has its separately keyed entry
is dropped: the fold leaves the object unchanged. -/
theorem foldl_incompatible_dropped (seats t : ℚ) (n : String) (u0 u : UnitId)
    (hn : n ≠ "") (hu : u ≠ u0) (hfam : family u ≠ family u0 ∨ family u = .Count)
    (rest : List (String × AggEntry)) (kept : AggEntry)
    (hg : get rest (newKey n u) = some kept) (lines : List IngredientLine)
    (h : ∀ l ∈ lines, l.ingredient = n ∧ l.unit = u ∧ l.amount.isSome = true) :
    lines.foldl (aggStep seats) ((n, ⟨t, u0⟩) :: rest) = (n, ⟨t, u0⟩) :: rest := by
  induction lines with
  | nil => rfl
  | cons l ls ih =>
    obtain ⟨d, i, a, u1⟩ := l
    have hl := h _ (List.mem_cons_self _ _)
    simp only at hl
    obtain ⟨rfl, rfl, ha⟩ := hl
    obtain ⟨a, rfl⟩ := Option.isSome_iff_exists.mp ha
    rw [List.foldl_cons, aggStep_head_drop seats t a i d u0 u1 rest kept hn
      (convert_fails (a * seats) u1 u0 hu hfam).1 hg]
    exact ih fun l hl => h l (List.mem_cons_of_mem _ hl)

/-- What `computeShoppingData` does with a run of lines in one unit that does
not convert to the unit of the ingredient's first line: the separately keyed
entry holds the first of these amounts only. -/
theorem computeShoppingData_incompatible_keeps_first (seats a0 b1 : ℚ) (n d : String)
    (u0 u : UnitId) (hn : n ≠ "") (hp : n ∉ OBJECT_PROTOTYPE_KEYS) (hu : u ≠ u0)
    (hfam : family u ≠ family u0 ∨ family u = .Count) (later : List IngredientLine)
    (h : ∀ l ∈ later, l.ingredient = n ∧ l.unit = u ∧ l.amount.isSome = true) :
    computeShoppingData (⟨d, n, some a0, u0⟩ :: ⟨d, n, some b1, u⟩ :: later) seats =
      [⟨n, a0 * seats, u0⟩, ⟨newKey n u, b1 * seats, u⟩] := by
  simp only [computeShoppingData, List.foldl_cons, aggStep_nil seats a0 n d u0 hn hp]
  rw [aggStep_head_split seats (a0 * seats) b1 n d u0 u [] hn
    (convert_fails (b1 * seats) u u0 hu hfam).1 (by simp [get])]
  rw [foldl_incompatible_dropped seats (a0 * seats) n u0 u hn hu hfam _ ⟨b1 * seats, u⟩
    (by simp [get]) later h]
  simp

/-- C7 on the code: rice is present in pounds, then two lines give it in bags,
2 and 3, with seat multiplier 1.  The entry keyed `"Rice (Bag)"` ends with
total 2, the first amount, and not with (2 + 3) * 1 = 5. -/
theorem computeShoppingData_incompatible_second_dropped :
    computeShoppingData
        [⟨"Curry", "Rice", some 1, .Pounds⟩, ⟨"Curry", "Rice", some 2, .Bag⟩,
          ⟨"Curry", "Rice", some 3, .Bag⟩] 1 =
      [⟨"Rice", 1, .Pounds⟩, ⟨"Rice (Bag)", 2, .Bag⟩] := by
  have h := computeShoppingData_incompatible_keeps_first 1 1 2 "Rice" "Curry" .Pounds .Bag
    (by decide) (by decide) (by decide) (Or.inl (by decide))
    [⟨"Curry", "Rice", some 3, .Bag⟩] (by simp)
  rw [h]
  simp [newKey, UnitId.name]

/-- The disambiguated key determines the unit. -/
theorem newKey_inj (n : String) (u v : UnitId) (h : newKey n u = newKey n v) : u = v := by
  have hd := congrArg String.data h
  simp only [newKey, String.data_append, List.append_assoc, List.append_cancel_left_eq] at hd
  cases u <;> cases v <;> first | rfl | (exfalso; revert hd; simp [UnitId.name])

/-- A read yields `undefined` exactly when no entry has the key. -/
theorem get_eq_none_iff {α β : Type} [DecidableEq α] (m : List (α × β)) (k : α) :
    get m k = none ↔ ∀ kv ∈ m, kv.1 ≠ k := by
  induction m with
  | nil => simp [get]
  | cons kv rest ih =>
    obtain ⟨k0, v0⟩ := kv
    by_cases h : k0 = k <;> simp [get, h, ih]

/-- A value read under a key is an entry of the object. -/
theorem mem_of_get_eq_some {α β : Type} [DecidableEq α] (m : List (α × β)) (k : α) (v : β)
    (h : get m k = some v) : (k, v) ∈ m := by
  induction m with
  | nil => simp [get] at h
  | cons kv rest ih =>
    obtain ⟨k0, v0⟩ := kv
    by_cases hk : k0 = k
    · simp [get, hk] at h
      simp [hk, h]
    · simp [get, hk] at h
      exact List.mem_cons_of_mem _ (ih h)

/-- Whether `convertAmount` succeeds depends on the two units only: it fails
exactly on two different units that do not share a convertible family. -/
theorem convertAmount_eq_none_iff (x : ℚ) (a b : UnitId) :
    convertAmount x a b = none ↔
      a ≠ b ∧ (family a ≠ family b ∨ family a = .Count) := by
  cases a <;> cases b <;>
    simp [convertAmount, family, truthy, WEIGHT_UNIT_GRAMS, VOLUME_UNIT_ML] <;> norm_num

/-- One step on a valid line of ingredient `n` keeps the shape of the object,
adds the line's converted amount to the first entry when it converts, and
records the line's unit. -/
theorem aggStep_SplitInv (seats t a : ℚ) (n d : String) (u0 u : UnitId)
    (rest : List (String × AggEntry)) (hn : n ≠ "") (hinv : SplitInv n u0 rest) :
    ∃ rest1, aggStep seats ((n, ⟨t, u0⟩) :: rest) ⟨d, n, some a, u⟩ =
        (n, ⟨t + (convertAmount (a * seats) u u0).getD 0, u0⟩) :: rest1 ∧
      SplitInv n u0 rest1 ∧ (∀ kv ∈ rest, kv ∈ rest1) ∧
      ((convertAmount 0 u u0).isSome = true ∨ ∃ kv ∈ rest1, kv.2.unit = u) := by
  cases hc : convertAmount (a * seats) u u0 with
  | some c =>
    refine ⟨rest, aggStep_head_merge seats t a c n d u0 u rest hn hc, hinv,
      fun kv h => h, Or.inl ?_⟩
    rw [← Option.ne_none_iff_isSome]
    intro h0
    have hnone := (convertAmount_eq_none_iff (a * seats) u u0).mpr
      ((convertAmount_eq_none_iff 0 u u0).mp h0)
    rw [hc] at hnone
    exact Option.some_ne_none c hnone
  | none =>
    obtain ⟨hu, hfam⟩ := (convertAmount_eq_none_iff _ _ _).mp hc
    simp only [Option.getD_none, add_zero]
    cases hg : get rest (newKey n u) with
    | none =>
      refine ⟨rest ++ [(newKey n u, ⟨a * seats, u⟩)],
        aggStep_head_split seats t a n d u0 u rest hn hc hg, ⟨?_, ?_⟩,
        fun kv h => List.mem_append_left _ h,
        Or.inr ⟨(newKey n u, ⟨a * seats, u⟩), List.mem_append_right _ (List.mem_singleton_self _),
          rfl⟩⟩
      · intro kv hkv
        rcases List.mem_append.mp hkv with h | h
        · exact hinv.1 kv h
        · simp only [List.mem_singleton] at h
          subst h
          exact ⟨rfl, hu, hfam⟩
      · rw [List.map_append, List.nodup_append]
        refine ⟨hinv.2, by simp, ?_⟩
        intro x hx hx2
        simp only [List.map_cons, List.map_nil, List.mem_singleton] at hx2
        subst hx2
        obtain ⟨kv, hkv, rfl⟩ := List.mem_map.mp hx
        exact (get_eq_none_iff rest _).mp hg kv hkv (hinv.1 kv hkv).1
    | some kept =>
      have hmem := mem_of_get_eq_some rest _ _ hg
      have hk := (hinv.1 _ hmem).1
      refine ⟨rest, aggStep_head_drop seats t a n d u0 u rest kept hn hc hg, hinv,
        fun kv h => h, Or.inr ⟨_, hmem, ?_⟩⟩
      exact (newKey_inj n _ _ hk).symm

/-- Folding valid lines of ingredient `n` keeps the shape of the object, adds
to the first entry the converted amount of every line that converts to the
first unit, keeps every entry already there, and leaves every line's unit
either convertible to the first unit or with an entry of its own. -/
theorem foldl_SplitInv (seats : ℚ) (n : String) (u0 : UnitId) (hn : n ≠ "")
    (lines : List IngredientLine)
    (h : ∀ l ∈ lines, l.ingredient = n ∧ l.amount.isSome = true)
    (t : ℚ) (rest : List (String × AggEntry)) (hinv : SplitInv n u0 rest) :
    ∃ rest1, lines.foldl (aggStep seats) ((n, ⟨t, u0⟩) :: rest) =
        (n, ⟨t + (lines.filterMap fun l =>
          convertAmount (l.amount.getD 0 * seats) l.unit u0).sum, u0⟩) :: rest1 ∧
      SplitInv n u0 rest1 ∧ (∀ kv ∈ rest, kv ∈ rest1) ∧
      ∀ l ∈ lines, (convertAmount 0 l.unit u0).isSome = true ∨ ∃ kv ∈ rest1, kv.2.unit = l.unit := by
  induction lines generalizing t rest with
  | nil => exact ⟨rest, by simp, hinv, fun kv h => h, by simp⟩
  | cons l ls ih =>
    obtain ⟨d, i, a, u⟩ := l
    have hl := h _ (List.mem_cons_self _ _)
    simp only at hl
    obtain ⟨rfl, ha⟩ := hl
    obtain ⟨a, rfl⟩ := Option.isSome_iff_exists.mp ha
    obtain ⟨rest1, e1, inv1, sub1, cov1⟩ := aggStep_SplitInv seats t a i d u0 u rest hn hinv
    obtain ⟨rest2, e2, inv2, sub2, cov2⟩ :=
      ih (fun l hl => h l (List.mem_cons_of_mem _ hl)) _ rest1 inv1
    refine ⟨rest2, ?_, inv2, fun kv hkv => sub2 kv (sub1 kv hkv), ?_⟩
    · rw [List.foldl_cons, e1, e2]
      cases hc : convertAmount (a * seats) u u0 with
      | none => simp [List.filterMap_cons, hc]
      | some c => simp [List.filterMap_cons, hc, add_assoc]
    · intro l hl
      rcases List.mem_cons.mp hl with rfl | hl
      · rcases cov1 with c | ⟨kv, hkv, hu⟩
        · exact Or.inl c
        · exact Or.inr ⟨kv, sub2 kv hkv, hu⟩
      · exact cov2 l hl

/-- C8, as stated, fails: lines of one ingredient in Bag, then Pounds, then
Ounces give three entries, of which two (Pounds and Ounces) are Mass. -/
theorem computeShoppingData_two_mass_entries_counterexample :
    computeShoppingData
        [⟨"Curry", "Rice", some 1, .Bag⟩, ⟨"Curry", "Rice", some 1, .Pounds⟩,
          ⟨"Curry", "Rice", some 16, .Ounces⟩] 1 =
      [⟨"Rice", 1, .Bag⟩, ⟨"Rice (Pounds)", 1, .Pounds⟩, ⟨"Rice (Ounces)", 16, .Ounces⟩] ∧
      family .Pounds = family .Ounces := by
  refine ⟨?_, rfl⟩
  have hn : "Rice" ≠ "" := by decide
  have hp : "Rice" ∉ OBJECT_PROTOTYPE_KEYS := by decide
  have h1 := (convert_fails (1 * 1) .Pounds .Bag (by decide) (Or.inl (by decide))).1
  have h2 := (convert_fails (16 * 1) .Ounces .Bag (by decide) (Or.inl (by decide))).1
  have k1 : ¬ newKey "Rice" .Pounds = newKey "Rice" .Ounces := fun h => by
    have := newKey_inj _ _ _ h
    exact absurd this (by decide)
  simp only [computeShoppingData, List.foldl_cons, List.foldl_nil,
    aggStep_nil 1 1 "Rice" "Curry" .Bag hn hp]
  rw [aggStep_head_split 1 (1 * 1) 1 "Rice" "Curry" .Bag .Pounds [] hn h1 (by simp [get])]
  rw [aggStep_head_split 1 (1 * 1) 16 "Rice" "Curry" .Bag .Ounces _ hn h2 (by simp [get, k1])]
  simp [newKey, UnitId.name]

/-- C8, amended: for valid lines sharing one non-blank ingredient name that is
not the name of an inherited property, `computeShoppingData` emits one entry
per unit, not per family.  The first entry is keyed by the ingredient, carries
the first line's unit, and its total is the sum of the converted scaled
amounts of all the lines whose unit converts to that unit; every other entry
is keyed `"<ingredient> (<unit>)"` for its own unit, which does not convert to
the first unit.  No two emitted entries have the same unit or the same key,
and the unit of every line either converts to the first unit or has its own
entry. -/
theorem computeShoppingData_one_entry_per_unit (seats : ℚ) (n : String) (hn : n ≠ "")
    (hp : n ∉ OBJECT_PROTOTYPE_KEYS)
    (l0 : IngredientLine) (later : List IngredientLine)
    (h : ∀ l ∈ l0 :: later, l.ingredient = n ∧ l.amount.isSome = true) :
    ∃ rest, computeShoppingData (l0 :: later) seats =
        ⟨n, ((l0 :: later).filterMap fun l =>
          convertAmount (l.amount.getD 0 * seats) l.unit l0.unit).sum, l0.unit⟩ :: rest ∧
      (∀ e ∈ rest, e.ingredient = newKey n e.unit ∧
        convertAmount e.totalAmount e.unit l0.unit = none) ∧
      ((computeShoppingData (l0 :: later) seats).map fun e => e.unit).Nodup ∧
      ((computeShoppingData (l0 :: later) seats).map fun e => e.ingredient).Nodup ∧
      ∀ l ∈ l0 :: later,
        (convertAmount 0 l.unit l0.unit).isSome = true ∨ ∃ e ∈ rest, e.unit = l.unit := by
  obtain ⟨d, i, a, u0⟩ := l0
  have hl := h _ (List.mem_cons_self _ _)
  simp only at hl
  obtain ⟨rfl, ha⟩ := hl
  obtain ⟨a, rfl⟩ := Option.isSome_iff_exists.mp ha
  have hinv0 : SplitInv i u0 [] := ⟨by simp, by simp⟩
  obtain ⟨rest1, e1, inv1, -, cov1⟩ := foldl_SplitInv seats i u0 hn later
    (fun l hl => h l (List.mem_cons_of_mem _ hl)) (a * seats) [] hinv0
  have hself : convertAmount (a * seats) u0 u0 = some (a * seats) := by simp [convertAmount]
  have hres : computeShoppingData (⟨d, i, some a, u0⟩ :: later) seats =
      ⟨i, ((⟨d, i, some a, u0⟩ :: later).filterMap fun l =>
          convertAmount (l.amount.getD 0 * seats) l.unit u0).sum, u0⟩ ::
        rest1.map fun kv => ⟨kv.1, kv.2.amount, kv.2.unit⟩ := by
    simp only [computeShoppingData, List.foldl_cons, aggStep_nil seats a i d u0 hn hp, e1,
      List.map_cons, List.filterMap_cons, Option.getD_some, hself, List.sum_cons]
  refine ⟨rest1.map fun kv => ⟨kv.1, kv.2.amount, kv.2.unit⟩, hres, ?_, ?_, ?_, ?_⟩
  · intro e he
    obtain ⟨kv, hkv, rfl⟩ := List.mem_map.mp he
    obtain ⟨hk, hu, hf⟩ := inv1.1 kv hkv
    exact ⟨hk, (convertAmount_eq_none_iff _ _ _).mpr ⟨hu, hf⟩⟩
  · rw [hres]
    simp only [List.map_cons, List.map_map, List.nodup_cons]
    refine ⟨?_, inv1.2⟩
    intro hmem
    obtain ⟨kv, hkv, hu⟩ := List.mem_map.mp hmem
    exact (inv1.1 kv hkv).2.1 hu
  · rw [hres]
    simp only [List.map_cons, List.map_map, List.nodup_cons]
    constructor
    · intro hmem
      obtain ⟨kv, hkv, hk⟩ := List.mem_map.mp hmem
      simp only [Function.comp] at hk
      rw [(inv1.1 kv hkv).1] at hk
      exact newKey_ne _ _ hk
    · have hkeys : List.map ((fun e : ShoppingDatum => e.ingredient) ∘
          fun kv : String × AggEntry => ⟨kv.1, kv.2.amount, kv.2.unit⟩) rest1 =
          (rest1.map fun kv => kv.2.unit).map (newKey i) := by
        rw [List.map_map]
        apply List.map_congr_left
        intro kv hkv
        simp only [Function.comp]
        exact (inv1.1 kv hkv).1
      rw [hkeys]
      exact inv1.2.map fun u v huv => newKey_inj i u v huv
  · intro l hl
    rcases List.mem_cons.mp hl with rfl | hl
    · left
      simp [convertAmount]
    · rcases cov1 l hl with c | ⟨kv, hkv, hu⟩
      · exact Or.inl c
      · exact Or.inr ⟨_, List.mem_map_of_mem _ hkv, hu⟩

/-- C8 at a concrete input: rice in Pounds, then Bag, then Ounces, seat
multiplier 1.  The first entry is Rice in Pounds with the pound and the 16
ounces, 2 pounds in all; the bag has its own entry. -/
theorem computeShoppingData_one_entry_per_unit_witness :
    ([(⟨"Curry", "Rice", some 1, .Pounds⟩ : IngredientLine),
        ⟨"Curry", "Rice", some 1, .Bag⟩, ⟨"Curry", "Rice", some 16, .Ounces⟩].filterMap
        fun l => convertAmount (l.amount.getD 0 * 1) l.unit UnitId.Pounds).sum = 2 ∧
    ∃ rest,
      computeShoppingData
        (⟨"Curry", "Rice", some 1, .Pounds⟩ ::
          [⟨"Curry", "Rice", some 1, .Bag⟩, ⟨"Curry", "Rice", some 16, .Ounces⟩]) 1 =
        ⟨"Rice", ((⟨"Curry", "Rice", some 1, .Pounds⟩ ::
          [⟨"Curry", "Rice", some 1, .Bag⟩, ⟨"Curry", "Rice", some 16, .Ounces⟩] :
            List IngredientLine).filterMap
          fun l => convertAmount (l.amount.getD 0 * 1) l.unit UnitId.Pounds).sum,
          UnitId.Pounds⟩ :: rest ∧
      (∀ e ∈ rest, e.ingredient = newKey "Rice" e.unit ∧
        convertAmount e.totalAmount e.unit UnitId.Pounds = none) ∧
      ((computeShoppingData
        (⟨"Curry", "Rice", some 1, .Pounds⟩ ::
          [⟨"Curry", "Rice", some 1, .Bag⟩, ⟨"Curry", "Rice", some 16, .Ounces⟩]) 1).map
            fun e => e.unit).Nodup ∧
      ((computeShoppingData
        (⟨"Curry", "Rice", some 1, .Pounds⟩ ::
          [⟨"Curry", "Rice", some 1, .Bag⟩, ⟨"Curry", "Rice", some 16, .Ounces⟩]) 1).map
            fun e => e.ingredient).Nodup ∧
      ∀ l ∈ (⟨"Curry", "Rice", some 1, .Pounds⟩ :: [⟨"Curry", "Rice", some 1, .Bag⟩,
          ⟨"Curry", "Rice", some 16, .Ounces⟩] : List IngredientLine),
        (convertAmount 0 l.unit UnitId.Pounds).isSome = true ∨ ∃ e ∈ rest, e.unit = l.unit := by
  constructor
  · simp [List.filterMap_cons, convertAmount, truthy, num, WEIGHT_UNIT_GRAMS, VOLUME_UNIT_ML]
    norm_num
  · exact computeShoppingData_one_entry_per_unit 1 "Rice" (by decide) (by decide)
      ⟨"Curry", "Rice", some 1, .Pounds⟩
      [⟨"Curry", "Rice", some 1, .Bag⟩, ⟨"Curry", "Rice", some 16, .Ounces⟩] (by simp)

/-! ## Price of a shopping row: theorems -/

/-- The number `toFixed` yields is a whole number of units of the last digit. -/
theorem toFixed_digits (x : ℚ) (f : ℕ) : ∃ k : ℤ, toFixed x f = (k : ℚ) / 10 ^ f := by
  unfold toFixed
  split
  · exact ⟨-⌊-x * 10 ^ f + 1 / 2⌋, by push_cast; ring⟩
  · exact ⟨⌊x * 10 ^ f + 1 / 2⌋, rfl⟩

/-- The number `toFixed` yields is within half a unit of the last digit. -/
theorem toFixed_close (x : ℚ) (f : ℕ) : |toFixed x f - x| ≤ 1 / (2 * 10 ^ f) := by
  have hpos : (0 : ℚ) < 10 ^ f := by positivity
  have key : ∀ y : ℚ, |((⌊y * 10 ^ f + 1 / 2⌋ : ℤ) : ℚ) / 10 ^ f - y| ≤ 1 / (2 * 10 ^ f) := by
    intro y
    have h1 := Int.floor_le (y * 10 ^ f + 1 / 2)
    have h2 := Int.lt_floor_add_one (y * 10 ^ f + 1 / 2)
    rw [abs_le]
    constructor
    · rw [le_sub_iff_add_le, le_div_iff₀ hpos]
      have : (-(1 / (2 * 10 ^ f)) + y) * 10 ^ f = y * 10 ^ f - 1 / 2 := by
        field_simp
        ring
      rw [this]
      linarith
    · rw [sub_le_iff_le_add, div_le_iff₀ hpos]
      have : (1 / (2 * 10 ^ f) + y) * 10 ^ f = y * 10 ^ f + 1 / 2 := by
        field_simp
        ring
      rw [this]
      linarith
  unfold toFixed
  split
  · have := key (-x)
    rw [show -((⌊-x * 10 ^ f + 1 / 2⌋ : ℤ) : ℚ) / 10 ^ f - x =
      -(((⌊-x * 10 ^ f + 1 / 2⌋ : ℤ) : ℚ) / 10 ^ f - -x) by ring, abs_neg]
    exact this
  · exact key x

/-- The price per unit the row is given when the catalog holds the row's own
unit: the stored price, whatever else is stored. -/
theorem updatePriceForRow_of_pricePerUnit
    (catalog : List (String × List (UnitId × ℚ))) (item : ShoppingRow) (unit : UnitId) (n : ℕ)
    (entries : List (UnitId × ℚ)) (hauto : item.priceAuto = true ∨ item.price = none)
    (hT : item.typeOfUnit = some unit) (hn : item.numUnits = some n) (hpos : 0 < n)
    (hc : get catalog item.ingredient = some entries) :
    updatePriceForRow catalog item =
      match (match get entries unit with
        | some p => some p
        | none => firstConverted entries unit) with
      | some p => { item with price := some (toFixed (p * n) 2), priceAuto := true }
      | none => { item with price := none, priceAuto := true } := by
  have hguard : (!item.priceAuto && item.price.isSome) = false := by
    rcases hauto with h | h <;> simp [h]
  have hn0 : n ≠ 0 := Nat.pos_iff_ne_zero.mp hpos
  simp only [updatePriceForRow, hguard, hT, hn, hn0, hc, if_false, Bool.false_eq_true]

/-- C9, as stated, fails at unitCount 0: the catalog holds Lettuce at 2 per
pound, the row is auto-derived with typeOfUnit Pounds and unitCount 0, and the
row's price is cleared instead of becoming 2 * 0 rounded. -/
theorem updatePriceForRow_zero_units_counterexample :
    get [("Lettuce", [(UnitId.Pounds, (2 : ℚ))])] "Lettuce" = some [(UnitId.Pounds, (2 : ℚ))] ∧
      get [(UnitId.Pounds, (2 : ℚ))] UnitId.Pounds = some 2 ∧
      (updatePriceForRow [("Lettuce", [(.Pounds, 2)])]
        ⟨"Lettuce", "Lettuce", 2, .Pounds, some 0, some .Pounds, none, true⟩).price = none := by
  refine ⟨by simp [get], by simp [get], ?_⟩
  simp [updatePriceForRow]

/-- C9, amended: for every row whose price is auto-derived or empty, every
set typeOfUnit and every unitCount of at least 1, if the catalog holds a price
`p` for the row's ingredient under typeOfUnit, then the row's price becomes
`p * unitCount` rounded to 2 decimals (a whole number of hundredths within
half a hundredth of `p * unitCount`), the row is marked auto-derived, and the
price is not cleared. -/
theorem updatePriceForRow_direct
    (catalog : List (String × List (UnitId × ℚ))) (item : ShoppingRow) (unit : UnitId) (n : ℕ)
    (entries : List (UnitId × ℚ)) (p : ℚ) (hauto : item.priceAuto = true ∨ item.price = none)
    (hT : item.typeOfUnit = some unit) (hn : item.numUnits = some n) (hpos : 0 < n)
    (hc : get catalog item.ingredient = some entries) (hp : get entries unit = some p) :
    updatePriceForRow catalog item =
        { item with price := some (toFixed (p * n) 2), priceAuto := true } ∧
      (updatePriceForRow catalog item).price ≠ none ∧
      (∃ k : ℤ, toFixed (p * n) 2 = (k : ℚ) / 100) ∧
      |toFixed (p * n) 2 - p * n| ≤ 1 / 200 := by
  have h := updatePriceForRow_of_pricePerUnit catalog item unit n entries hauto hT hn hpos hc
  simp only [hp] at h
  refine ⟨h, by simp [h], ?_, ?_⟩
  · have := toFixed_digits (p * n) 2
    norm_num at this ⊢
    exact this
  · have := toFixed_close (p * n) 2
    norm_num at this ⊢
    exact this

/-- How `toFixed` is evaluated on a non-negative number. -/
theorem toFixed_eq_of_floor (x : ℚ) (f : ℕ) (k : ℤ) (hx : 0 ≤ x)
    (h1 : (k : ℚ) ≤ x * 10 ^ f + 1 / 2) (h2 : x * 10 ^ f + 1 / 2 < k + 1) :
    toFixed x f = (k : ℚ) / 10 ^ f := by
  unfold toFixed
  rw [if_neg (not_lt.mpr hx), Int.floor_eq_iff.mpr ⟨h1, h2⟩]

/-- C9 at a concrete input: Lettuce at 2 per pound, 3 pounds bought, price 6. -/
theorem updatePriceForRow_direct_witness :
    updatePriceForRow [("Lettuce", [(.Pounds, 2)])]
        ⟨"Lettuce", "Lettuce", 2, .Pounds, some 3, some .Pounds, none, true⟩ =
      ⟨"Lettuce", "Lettuce", 2, .Pounds, some 3, some .Pounds, some 6, true⟩ := by
  have h := (updatePriceForRow_direct [("Lettuce", [(.Pounds, 2)])]
    ⟨"Lettuce", "Lettuce", 2, .Pounds, some 3, some .Pounds, none, true⟩ .Pounds 3
    [(.Pounds, 2)] 2 (Or.inl rfl) rfl rfl (by decide) (by simp [get]) (by simp [get])).1
  have hr : toFixed (2 * ((3 : ℕ) : ℚ)) 2 = 6 := by
    rw [toFixed_eq_of_floor _ 2 600 (by norm_num) (by norm_num) (by norm_num)]
    norm_num
  rw [h, hr]

/-- The loop of `updatePriceForRow` returns the conversion of the first stored
unit that converts. -/
theorem firstConverted_eq (pre post : List (UnitId × ℚ)) (u unit : UnitId) (p c : ℚ)
    (hpre : ∀ kv ∈ pre, convertPricePerUnit kv.2 kv.1 unit = none)
    (hu : convertPricePerUnit p u unit = some c) :
    firstConverted (pre ++ (u, p) :: post) unit = some c := by
  induction pre with
  | nil => simp [firstConverted, hu]
  | cons kv rest ih =>
    obtain ⟨u1, p1⟩ := kv
    have h1 := hpre (u1, p1) (List.mem_cons_self _ _)
    simp only at h1
    simp only [List.cons_append, firstConverted, h1]
    exact ih fun kv hkv => hpre kv (List.mem_cons_of_mem _ hkv)

/-- C10, as stated, fails at unitCount 0: the catalog holds Lettuce in Pounds
only, which converts to Ounces, the row is auto-derived with typeOfUnit Ounces
and the set unitCount 0, and the row's price is cleared instead of becoming
the converted price times 0, rounded. -/
theorem updatePriceForRow_fallback_zero_units_counterexample :
    get [(UnitId.Pounds, (2 : ℚ))] UnitId.Ounces = none ∧
      convertPricePerUnit 2 .Pounds .Ounces = some (1 / 8) ∧
      (updatePriceForRow [("Lettuce", [(.Pounds, 2)])]
        ⟨"Lettuce", "Lettuce", 2, .Pounds, some 0, some .Ounces, none, true⟩).price = none := by
  refine ⟨by simp [get], ?_, by simp [updatePriceForRow]⟩
  simp [convertPricePerUnit, truthy, num, WEIGHT_UNIT_GRAMS]
  norm_num

/-- C10, amended: for a row whose price is auto-derived or empty, with
typeOfUnit `unit` and a unitCount `n` of at least 1, when the catalog holds
prices for the ingredient but none under `unit`, and `u` is the first stored
unit, in catalog order, that `convertPricePerUnit` converts to `unit`, with
result `c`, the row's price becomes `c * n` rounded to 2 decimals and the row
is marked auto-derived. -/
theorem updatePriceForRow_fallback
    (catalog : List (String × List (UnitId × ℚ))) (item : ShoppingRow) (unit u : UnitId) (n : ℕ)
    (pre post : List (UnitId × ℚ)) (p c : ℚ)
    (hauto : item.priceAuto = true ∨ item.price = none)
    (hT : item.typeOfUnit = some unit) (hn : item.numUnits = some n) (hpos : 0 < n)
    (hc : get catalog item.ingredient = some (pre ++ (u, p) :: post))
    (hmiss : get (pre ++ (u, p) :: post) unit = none)
    (hpre : ∀ kv ∈ pre, convertPricePerUnit kv.2 kv.1 unit = none)
    (hu : convertPricePerUnit p u unit = some c) :
    updatePriceForRow catalog item =
        { item with price := some (toFixed (c * n) 2), priceAuto := true } ∧
      (∃ k : ℤ, toFixed (c * n) 2 = (k : ℚ) / 100) ∧
      |toFixed (c * n) 2 - c * n| ≤ 1 / 200 := by
  have h := updatePriceForRow_of_pricePerUnit catalog item unit n _ hauto hT hn hpos hc
  simp only [hmiss, firstConverted_eq pre post u unit p c hpre hu] at h
  refine ⟨h, ?_, ?_⟩
  · have := toFixed_digits (c * n) 2
    norm_num at this ⊢
    exact this
  · have := toFixed_close (c * n) 2
    norm_num at this ⊢
    exact this

/-- C10 at the specification's scenario: catalog `{Lettuce: {Pounds: 2.0}}`,
unitCount 3, typeOfUnit Ounces.  The price per ounce is 2 / 16, the price is
0.375, and the row shows 0.38. -/
theorem updatePriceForRow_fallback_witness :
    convertPricePerUnit 2.0 .Pounds .Ounces = some (2.0 / 16) ∧
      (2.0 / 16 * 3 : ℚ) = 0.375 ∧
      updatePriceForRow [("Lettuce", [(.Pounds, 2.0)])]
        ⟨"Lettuce", "Lettuce", 2, .Pounds, some 3, some .Ounces, none, true⟩ =
      ⟨"Lettuce", "Lettuce", 2, .Pounds, some 3, some .Ounces, some 0.38, true⟩ := by
  have hu : convertPricePerUnit 2.0 .Pounds .Ounces = some (2.0 / 16) := by
    simp [convertPricePerUnit, truthy, num, WEIGHT_UNIT_GRAMS]
    norm_num
  have h := (updatePriceForRow_fallback [("Lettuce", [(.Pounds, 2.0)])]
    ⟨"Lettuce", "Lettuce", 2, .Pounds, some 3, some .Ounces, none, true⟩ .Ounces .Pounds 3
    [] [] 2.0 (2.0 / 16) (Or.inl rfl) rfl rfl (by decide) (by simp [get]) (by simp [get])
    (by simp) hu).1
  have hr : toFixed ((2.0 / 16 : ℚ) * ((3 : ℕ) : ℚ)) 2 = 0.38 := by
    rw [toFixed_eq_of_floor _ 2 38 (by norm_num) (by norm_num) (by norm_num)]
    norm_num
  refine ⟨hu, by norm_num, ?_⟩
  rw [h, hr]

/-- The loop of `updatePriceForRow` finds nothing when no stored unit
converts. -/
theorem firstConverted_eq_none (entries : List (UnitId × ℚ)) (unit : UnitId)
    (h : ∀ kv ∈ entries, convertPricePerUnit kv.2 kv.1 unit = none) :
    firstConverted entries unit = none := by
  induction entries with
  | nil => rfl
  | cons kv rest ih =>
    obtain ⟨u, p⟩ := kv
    have h1 := h (u, p) (List.mem_cons_self _ _)
    simp only at h1
    simp only [firstConverted, h1]
    exact ih fun kv hkv => h kv (List.mem_cons_of_mem _ hkv)

/-- When no stored unit converts to `unit`, `unit` itself is not stored. -/
theorem get_eq_none_of_not_converting (entries : List (UnitId × ℚ)) (unit : UnitId)
    (h : ∀ kv ∈ entries, convertPricePerUnit kv.2 kv.1 unit = none) :
    get entries unit = none := by
  cases hg : get entries unit with
  | none => rfl
  | some p =>
    have h1 := h _ (mem_of_get_eq_some entries unit p hg)
    simp [convertPricePerUnit] at h1

/-- C11, as stated, fails on a row whose price the user entered: the catalog
has no entry at all for Quinoa, and the row keeps its price 4.5 instead of
being cleared. -/
theorem updatePriceForRow_frozen_row_counterexample :
    get ([] : List (String × List (UnitId × ℚ))) "Quinoa" = none ∧
      (updatePriceForRow []
        ⟨"Quinoa", "Quinoa", 1, .Cups, some 2, some .Cups, some 4.5, false⟩).price =
        some 4.5 := by
  refine ⟨rfl, ?_⟩
  simp [updatePriceForRow]

/-- C11, amended: on a row whose price is auto-derived or empty, the price is
cleared (and the row marked auto-derived) whenever no unit stored for the
row's ingredient converts to typeOfUnit; in particular whenever the catalog
has no entry at all for the ingredient, for every unitCount and typeOfUnit. -/
theorem updatePriceForRow_unresolved
    (catalog : List (String × List (UnitId × ℚ))) (item : ShoppingRow)
    (hauto : item.priceAuto = true ∨ item.price = none) :
    ((∀ entries unit, get catalog item.ingredient = some entries →
        item.typeOfUnit = some unit →
        ∀ kv ∈ entries, convertPricePerUnit kv.2 kv.1 unit = none) →
      updatePriceForRow catalog item = { item with price := none, priceAuto := true }) ∧
    (get catalog item.ingredient = none →
      updatePriceForRow catalog item = { item with price := none, priceAuto := true }) := by
  have hguard : (!item.priceAuto && item.price.isSome) = false := by
    rcases hauto with h | h <;> simp [h]
  have main : (∀ entries unit, get catalog item.ingredient = some entries →
        item.typeOfUnit = some unit →
        ∀ kv ∈ entries, convertPricePerUnit kv.2 kv.1 unit = none) →
      updatePriceForRow catalog item = { item with price := none, priceAuto := true } := by
    intro h
    cases hn : item.numUnits with
    | none => simp [updatePriceForRow, hguard, hn]
    | some n =>
      cases hT : item.typeOfUnit with
      | none => simp [updatePriceForRow, hguard, hn, hT]
      | some unit =>
        by_cases hn0 : n = 0
        · simp [updatePriceForRow, hguard, hn, hT, hn0]
        · cases hc : get catalog item.ingredient with
          | none => simp [updatePriceForRow, hguard, hn, hT, hn0, hc]
          | some entries =>
            have hall := h entries unit hc hT
            simp [updatePriceForRow, hguard, hn, hT, hn0, hc,
              get_eq_none_of_not_converting entries unit hall,
              firstConverted_eq_none entries unit hall]
  refine ⟨main, fun hnone => main ?_⟩
  intro entries unit hc
  rw [hnone] at hc
  exact absurd hc (by simp)

/-- C11 at the specification's scenario: no catalog entry for Quinoa, an
auto-derived row with 2 cups: the price is cleared. -/
theorem updatePriceForRow_unresolved_witness :
    updatePriceForRow [("Lettuce", [(.Pounds, 2)])]
        ⟨"Quinoa", "Quinoa", 1, .Cups, some 2, some .Cups, some 3, true⟩ =
      ⟨"Quinoa", "Quinoa", 1, .Cups, some 2, some .Cups, none, true⟩ :=
  (updatePriceForRow_unresolved [("Lettuce", [(.Pounds, 2)])]
    ⟨"Quinoa", "Quinoa", 1, .Cups, some 2, some .Cups, some 3, true⟩ (Or.inl rfl)).2
    (by simp [get])

/-- C12: a row with `priceAuto = false` and a non-empty price is returned
unchanged by `updatePriceForRow`, whatever the catalog, unitCount and
typeOfUnit; and whenever `updatePriceForRow` does change a row's price, the
row was marked auto-derived or its price was empty. -/
theorem updatePriceForRow_user_price
    (catalog : List (String × List (UnitId × ℚ))) (item : ShoppingRow) :
    (item.priceAuto = false → item.price ≠ none → updatePriceForRow catalog item = item) ∧
    ((updatePriceForRow catalog item).price ≠ item.price →
      item.priceAuto = true ∨ item.price = none) := by
  have h1 : item.priceAuto = false → item.price ≠ none →
      updatePriceForRow catalog item = item := by
    intro ha hp
    obtain ⟨p, hp⟩ := Option.ne_none_iff_exists'.mp hp
    simp [updatePriceForRow, ha, hp]
  refine ⟨h1, fun hne => ?_⟩
  by_contra hcon
  push_neg at hcon
  have ha : item.priceAuto = false := by simpa using hcon.1
  exact hne (by rw [h1 ha hcon.2])

/-- C12 at a concrete input: the user priced 3 pounds of lettuce at 7.25 while
the catalog would give 6. -/
theorem updatePriceForRow_user_price_witness :
    updatePriceForRow [("Lettuce", [(.Pounds, 2)])]
        ⟨"Lettuce", "Lettuce", 2, .Pounds, some 3, some .Pounds, some 7.25, false⟩ =
      ⟨"Lettuce", "Lettuce", 2, .Pounds, some 3, some .Pounds, some 7.25, false⟩ :=
  (updatePriceForRow_user_price [("Lettuce", [(.Pounds, 2)])]
    ⟨"Lettuce", "Lettuce", 2, .Pounds, some 3, some .Pounds, some 7.25, false⟩).1 rfl
    (by simp)

/-! ## Price catalog update: theorems -/

/-- Reading another key than the one just written yields what was there. -/
theorem get_assign_of_ne {α β : Type} [DecidableEq α] (m : List (α × β)) (k k1 : α) (v : β)
    (h : k ≠ k1) : get (assign m k v) k1 = get m k1 := by
  induction m with
  | nil => simp [assign, get, h]
  | cons kv rest ih =>
    obtain ⟨k0, v0⟩ := kv
    by_cases h0 : k0 = k
    · subst h0
      simp [assign, get, h]
    · by_cases h1 : k0 = k1
      · subst h1
        simp [assign, get, h0]
      · simp [assign, get, h0, h1, ih]

/-- After writing `f u` under every key `u` of a list, a key of the list reads
`f` of it and any other key reads what was there. -/
theorem get_foldl_assign {α β : Type} [DecidableEq α] (ks : List α) (f : α → β)
    (m : List (α × β)) (k : α) :
    get (ks.foldl (fun e u => assign e u (f u)) m) k =
      if k ∈ ks then some (f k) else get m k := by
  induction ks generalizing m with
  | nil => simp
  | cons k0 rest ih =>
    rw [List.foldl_cons, ih]
    by_cases hk : k ∈ rest
    · simp [hk]
    · by_cases h0 : k = k0
      · subst h0
        simp [hk, get_assign_self]
      · have h1 : k0 ≠ k := fun h => h0 h.symm
        simp [hk, h0, get_assign_of_ne _ _ _ _ h1]

/-- The keys of the weight table are the Mass units. -/
theorem mem_keys_weight (u : UnitId) : u ∈ keys WEIGHT_UNIT_GRAMS ↔ family u = .Mass := by
  cases u <;> simp [keys, ALL_UNITS, UNCONVERTIBLE_UNITS, WEIGHT_UNIT_GRAMS, family]

/-- The keys of the volume table are the Volume units. -/
theorem mem_keys_volume (u : UnitId) : u ∈ keys VOLUME_UNIT_ML ↔ family u = .Volume := by
  cases u <;> simp [keys, ALL_UNITS, UNCONVERTIBLE_UNITS, VOLUME_UNIT_ML, family]

/-- A weight-table entry is truthy exactly for the Mass units, and is then the
unit's factor. -/
theorem weight_entry (u : UnitId) :
    (truthy (WEIGHT_UNIT_GRAMS u) = true ↔ family u = .Mass) ∧
      (family u = .Mass → num (WEIGHT_UNIT_GRAMS u) = factor u) := by
  cases u <;> simp [truthy, num, WEIGHT_UNIT_GRAMS, family, factor] <;> norm_num

/-- A volume-table entry is truthy exactly for the Volume units, and is then
the unit's factor. -/
theorem volume_entry (u : UnitId) :
    (truthy (VOLUME_UNIT_ML u) = true ↔ family u = .Volume) ∧
      (family u = .Volume → num (VOLUME_UNIT_ML u) = factor u) := by
  cases u <;> simp [truthy, num, VOLUME_UNIT_ML, family, factor]

/-- Reading an ingredient's price after the ingredient's object was written. -/
theorem priceOf_assign_self (catalog : List (String × List (UnitId × ℚ))) (i : String)
    (entries : List (UnitId × ℚ)) (u : UnitId) :
    priceOf (assign catalog i entries) i u = get entries u := by
  simp [priceOf, get_assign_self]

/-- What `updateCatalogFromRow` leaves in the catalog: every other ingredient
as it was, and for the row's ingredient the propagated price under every unit
of a Mass or Volume unit's family, the observed price under a Count unit, and
what was there under every other unit. -/
theorem updateCatalogFromRow_spec (catalog : List (String × List (UnitId × ℚ)))
    (item : ShoppingRow) (units : UnitId) (price : ℚ) (n : ℕ)
    (hT : item.typeOfUnit = some units) (hp : item.price = some price)
    (hn : item.numUnits = some n) (hn0 : n ≠ 0) :
    ∃ catalog1, updateCatalogFromRow catalog item =
        some (catalog1, { item with priceAuto := false }) ∧
      (∀ i, i ≠ item.ingredient → get catalog1 i = get catalog i) ∧
      ∀ u, priceOf catalog1 item.ingredient u =
        if family units ≠ .Count ∧ family u = family units then
          some (price / n / factor units * factor u)
        else if u = units then some (price / n)
        else priceOf catalog item.ingredient u := by
  have hbase : ∀ u, get (match get catalog item.ingredient with
      | some entries => entries
      | none => ([] : List (UnitId × ℚ))) u = priceOf catalog item.ingredient u := by
    intro u
    unfold priceOf
    cases get catalog item.ingredient <;> simp [get]
  have hframe : ∀ (e : List (UnitId × ℚ)) (i : String), i ≠ item.ingredient →
      get (assign catalog item.ingredient e) i = get catalog i :=
    fun e i hi => get_assign_of_ne _ _ _ _ (fun h => hi h.symm)
  have hentry1 : ∀ u, get (assign (match get catalog item.ingredient with
      | some entries => entries
      | none => ([] : List (UnitId × ℚ))) units (price / n)) u =
      if u = units then some (price / n) else priceOf catalog item.ingredient u := by
    intro u
    by_cases hu : u = units
    · subst hu
      simp [get_assign_self]
    · rw [get_assign_of_ne _ _ _ _ (fun h => hu h.symm), hbase]
      simp [hu]
  by_cases hm : family units = .Mass
  · have htr := (weight_entry units).1.mpr hm
    refine ⟨_, by simp only [updateCatalogFromRow, hT, hp, hn, hn0, if_false, htr, if_true]; rfl,
      fun i hi => hframe _ i hi, fun u => ?_⟩
    rw [priceOf_assign_self, get_foldl_assign, hentry1, (weight_entry units).2 hm]
    simp only [mem_keys_weight]
    by_cases hu : family u = .Mass
    · simp [hu, hm, (weight_entry u).2 hu]
    · have hne : u ≠ units := fun h => hu (h ▸ hm)
      simp [hu, hm, hne]
  · by_cases hv : family units = .Volume
    · have htr : truthy (WEIGHT_UNIT_GRAMS units) = false := by
        simpa using mt (weight_entry units).1.mp hm
      have htv := (volume_entry units).1.mpr hv
      refine ⟨_, by simp only [updateCatalogFromRow, hT, hp, hn, hn0, if_false, htr, htv,
        if_true, Bool.false_eq_true]; rfl, fun i hi => hframe _ i hi, fun u => ?_⟩
      rw [priceOf_assign_self, get_foldl_assign, hentry1, (volume_entry units).2 hv]
      simp only [mem_keys_volume]
      by_cases hu : family u = .Volume
      · simp [hu, hv, (volume_entry u).2 hu]
      · have hne : u ≠ units := fun h => hu (h ▸ hv)
        simp [hu, hv, hne]
    · have hc : family units = .Count := by
        cases hf : family units <;> simp_all
      have htr : truthy (WEIGHT_UNIT_GRAMS units) = false := by
        simpa using mt (weight_entry units).1.mp hm
      have htv : truthy (VOLUME_UNIT_ML units) = false := by
        simpa using mt (volume_entry units).1.mp hv
      refine ⟨_, by simp only [updateCatalogFromRow, hT, hp, hn, hn0, if_false, htr, htv,
        Bool.false_eq_true]; rfl, fun i hi => hframe _ i hi, fun u => ?_⟩
      rw [priceOf_assign_self]
      by_cases hu : u = units
      · subst hu
        simp [get_assign_self, hc]
      · rw [get_assign_of_ne _ _ _ _ (fun h => hu h.symm), hentry1]
        simp [hu, hc]

/-- C13: for a Mass or Volume unit `units` and the observed price per unit
`price / n` (`n` non-zero), after `updateCatalogFromRow` the catalog holds,
for every unit `u` of the family of `units`,
`convertPricePerUnit (price / n) units u` under the row's ingredient, and so
`price / n` under `units` itself, whatever the catalog held before. -/
theorem updateCatalogFromRow_propagates (catalog : List (String × List (UnitId × ℚ)))
    (item : ShoppingRow) (units : UnitId) (price : ℚ) (n : ℕ)
    (hT : item.typeOfUnit = some units) (hp : item.price = some price)
    (hn : item.numUnits = some n) (hn0 : n ≠ 0) (hfam : family units ≠ .Count) :
    ∃ catalog1, updateCatalogFromRow catalog item =
        some (catalog1, { item with priceAuto := false }) ∧
      priceOf catalog1 item.ingredient units = some (price / n) ∧
      ∀ u, family u = family units →
        priceOf catalog1 item.ingredient u = convertPricePerUnit (price / n) units u := by
  obtain ⟨catalog1, hres, -, hprice⟩ :=
    updateCatalogFromRow_spec catalog item units price n hT hp hn hn0
  have h0 := factor_ne_zero units hfam
  have hsame : ∀ u, family u = family units →
      priceOf catalog1 item.ingredient u = convertPricePerUnit (price / n) units u := by
    intro u hu
    rw [hprice u, convertPricePerUnit_same_family _ units u hu.symm hfam]
    by_cases he : units = u
    · subst he
      simp only [hfam, ne_eq, not_false_eq_true, and_self, if_true, Option.some.injEq]
      field_simp
      ring
    · simp [hfam, hu, he]
  refine ⟨catalog1, hres, ?_, hsame⟩
  rw [hsame units rfl]
  simp [convertPricePerUnit]

/-- C13 at the specification's scenario: recording Flour at 0.01 per gram on
an empty catalog yields Grams 0.01, Pounds 4.53592, Ounces 0.283495 and
Kilograms 10, and no Volume or Count entry. -/
theorem updateCatalogFromRow_propagates_witness :
    updateCatalogFromRow []
        ⟨"Flour", "Flour", 500, .Grams, some 1, some .Grams, some 0.01, false⟩ =
      some ([("Flour", [(.Grams, 0.01), (.Pounds, 4.53592), (.Ounces, 0.283495),
          (.Kilograms, 10)])],
        ⟨"Flour", "Flour", 500, .Grams, some 1, some .Grams, some 0.01, false⟩) ∧
    ∃ catalog1, updateCatalogFromRow []
        ⟨"Flour", "Flour", 500, .Grams, some 1, some .Grams, some 0.01, false⟩ =
        some (catalog1,
          ⟨"Flour", "Flour", 500, .Grams, some 1, some .Grams, some 0.01, false⟩) ∧
      priceOf catalog1 "Flour" .Grams = some ((0.01 : ℚ) / ((1 : ℕ) : ℚ)) ∧
      ∀ u, family u = family .Grams →
        priceOf catalog1 "Flour" u = convertPricePerUnit ((0.01 : ℚ) / ((1 : ℕ) : ℚ)) .Grams u := by
  constructor
  · simp [updateCatalogFromRow, get, assign, keys, ALL_UNITS, UNCONVERTIBLE_UNITS, truthy, num,
      WEIGHT_UNIT_GRAMS]
    norm_num
  · exact updateCatalogFromRow_propagates []
      ⟨"Flour", "Flour", 500, .Grams, some 1, some .Grams, some 0.01, false⟩ .Grams 0.01 1
      rfl rfl rfl (by decide) (by decide)

/-- C14: `updateCatalogFromRow` for a row of ingredient `i` and unit `units`
leaves the entries of every other ingredient as they were, and under `i`
leaves every unit of another family than `units` as it was; when `units` is a
Count unit it writes the observed price under `units` and leaves every other
unit of `i` as it was. -/
theorem updateCatalogFromRow_frame (catalog : List (String × List (UnitId × ℚ)))
    (item : ShoppingRow) (units : UnitId) (price : ℚ) (n : ℕ)
    (hT : item.typeOfUnit = some units) (hp : item.price = some price)
    (hn : item.numUnits = some n) (hn0 : n ≠ 0) :
    ∃ catalog1, updateCatalogFromRow catalog item =
        some (catalog1, { item with priceAuto := false }) ∧
      (∀ i, i ≠ item.ingredient → get catalog1 i = get catalog i) ∧
      (∀ u, family u ≠ family units →
        priceOf catalog1 item.ingredient u = priceOf catalog item.ingredient u) ∧
      (family units = .Count →
        priceOf catalog1 item.ingredient units = some (price / n) ∧
        ∀ u, u ≠ units →
          priceOf catalog1 item.ingredient u = priceOf catalog item.ingredient u) := by
  obtain ⟨catalog1, hres, hother, hprice⟩ :=
    updateCatalogFromRow_spec catalog item units price n hT hp hn hn0
  refine ⟨catalog1, hres, hother, ?_, ?_⟩
  · intro u hu
    have hne : u ≠ units := fun h => hu (h ▸ rfl)
    rw [hprice u]
    simp [hu, hne]
  · intro hc
    constructor
    · rw [hprice units]
      simp [hc]
    · intro u hu
      rw [hprice u]
      simp [hc, hu]

/-- C14 at a concrete input: 2 bags of rice bought for 10, with rice already
priced per pound and lettuce in the catalog.  Only Rice/Bag is written. -/
theorem updateCatalogFromRow_frame_witness :
    updateCatalogFromRow [("Rice", [(.Pounds, 2)]), ("Lettuce", [(.Pounds, 3)])]
        ⟨"Rice", "Rice (Bag)", 4, .Bag, some 2, some .Bag, some 10, false⟩ =
      some ([("Rice", [(.Pounds, 2), (.Bag, 5)]), ("Lettuce", [(.Pounds, 3)])],
        ⟨"Rice", "Rice (Bag)", 4, .Bag, some 2, some .Bag, some 10, false⟩) ∧
    ∃ catalog1, updateCatalogFromRow [("Rice", [(.Pounds, 2)]), ("Lettuce", [(.Pounds, 3)])]
        ⟨"Rice", "Rice (Bag)", 4, .Bag, some 2, some .Bag, some 10, false⟩ =
        some (catalog1,
          ⟨"Rice", "Rice (Bag)", 4, .Bag, some 2, some .Bag, some 10, false⟩) ∧
      (∀ i, i ≠ "Rice" →
        get catalog1 i = get [("Rice", [(.Pounds, 2)]), ("Lettuce", [(.Pounds, 3)])] i) ∧
      (∀ u, family u ≠ family .Bag →
        priceOf catalog1 "Rice" u =
          priceOf [("Rice", [(.Pounds, 2)]), ("Lettuce", [(.Pounds, 3)])] "Rice" u) ∧
      (family .Bag = .Count →
        priceOf catalog1 "Rice" .Bag = some ((10 : ℚ) / ((2 : ℕ) : ℚ)) ∧
        ∀ u, u ≠ UnitId.Bag →
          priceOf catalog1 "Rice" u =
            priceOf [("Rice", [(.Pounds, 2)]), ("Lettuce", [(.Pounds, 3)])] "Rice" u) := by
  constructor
  · simp [updateCatalogFromRow, get, assign, truthy, WEIGHT_UNIT_GRAMS, VOLUME_UNIT_ML]
    norm_num
  · exact updateCatalogFromRow_frame [("Rice", [(.Pounds, 2)]), ("Lettuce", [(.Pounds, 3)])]
      ⟨"Rice", "Rice (Bag)", 4, .Bag, some 2, some .Bag, some 10, false⟩ .Bag 10 2
      rfl rfl rfl (by decide)

end MenuPlanner

namespace Converter

/-! ## Ingredient converter: theorems -/

/-- The result of `convertRow` on a picked ingredient with a stored non-zero
density and a positive amount. -/
theorem convertRow_ok (densities : List (String × ℚ)) (ingredient unit : String)
    (amount density : ℚ) (hi : ingredient ≠ "")
    (hd : MenuPlanner.get densities ingredient = some density) (hd0 : density ≠ 0)
    (ha : 0 < amount) :
    convertRow densities ingredient (some amount) unit =
      .ok ⟨grams unit amount density, grams unit amount density / density,
        grams unit amount density / density * 16,
        grams unit amount density / density * 16 * 3,
        roundTo (grams unit amount density / density) 3,
        roundTo (grams unit amount density / density * 16) 2,
        roundTo (grams unit amount density / density * 16 * 3) 2⟩ := by
  simp only [convertRow, hi, if_false, hd, hd0, not_le.mpr ha]

/-- The variable `grams` of the code is the grams of the reference
definition, on each of the four units. -/
theorem grams_eq_gramsOf (unit : MetricUnit) (amount density : ℚ) :
    grams unit.value amount density = gramsOf amount unit density := by
  cases unit <;> simp [grams, gramsOf, MetricUnit.value, CUP_ML] <;> ring

/-- How `roundTo` is evaluated on a non-negative number. -/
theorem roundTo_eq_of_floor (n : ℚ) (d : ℕ) (k : ℤ) (hk : 0 ≤ k)
    (h1 : (k : ℚ) ≤ (n + EPSILON) * 10 ^ d + 1 / 2)
    (h2 : (n + EPSILON) * 10 ^ d + 1 / 2 < k + 1) :
    roundTo n d = (k : ℚ) / 10 ^ d := by
  have hpos : (0 : ℚ) < 10 ^ d := by positivity
  have hr : mathRound ((n + EPSILON) * 10 ^ d) = k := Int.floor_eq_iff.mpr ⟨h1, h2⟩
  have hk0 : (0 : ℚ) ≤ (k : ℚ) / 10 ^ d := div_nonneg (by exact_mod_cast hk) hpos.le
  simp only [roundTo, hr]
  apply MenuPlanner.toFixed_eq_of_floor _ d k hk0
  · rw [div_mul_cancel₀ _ hpos.ne']
    linarith
  · rw [div_mul_cancel₀ _ hpos.ne']
    linarith

/-- C15: for a picked ingredient with density > 0 and an amount > 0,
`convertRow` succeeds and its grams, cups, tbsp and tsp are those of the
reference definition `convertByDensity` on each of g, kg, ml and l; tsp is 48
times cups, and the three shown numbers are the rounded cups (3 decimals),
tbsp and tsp (2 decimals). -/
theorem convertRow_eq_convertByDensity (densities : List (String × ℚ)) (ingredient : String)
    (unit : MetricUnit) (amount density : ℚ) (hi : ingredient ≠ "")
    (hd : MenuPlanner.get densities ingredient = some density) (hpos : 0 < density)
    (ha : 0 < amount) :
    ∃ c, convertRow densities ingredient (some amount) unit.value = .ok c ∧
      (c.grams, c.cups, c.tbsp, c.tsp) = convertByDensity amount unit density ∧
      c.tsp = 48 * c.cups ∧
      c.cupsFmt = roundTo c.cups 3 ∧ c.tbspFmt = roundTo c.tbsp 2 ∧
      c.tspFmt = roundTo c.tsp 2 := by
  refine ⟨_, convertRow_ok densities ingredient unit.value amount density hi hd hpos.ne' ha,
    ?_, ?_, rfl, rfl, rfl⟩
  · simp only [convertByDensity, grams_eq_gramsOf]
  · simp only
    ring

/-- C15 at the specification's scenario: 100 g of an ingredient of density
120 gives grams 100, cups 5/6 shown as 0.833, tbsp 40/3 shown as 13.33 and
tsp 40 shown as 40.00. -/
theorem convertRow_eq_convertByDensity_witness :
    convertRow [("All-Purpose Flour", 120)] "All-Purpose Flour" (some 100) "g" =
      .ok ⟨100, 5 / 6, 40 / 3, 40, 0.833, 13.33, 40⟩ ∧
    ∃ c, convertRow [("All-Purpose Flour", 120)] "All-Purpose Flour" (some 100)
        MetricUnit.g.value = .ok c ∧
      (c.grams, c.cups, c.tbsp, c.tsp) = convertByDensity 100 .g 120 ∧
      c.tsp = 48 * c.cups ∧
      c.cupsFmt = roundTo c.cups 3 ∧ c.tbspFmt = roundTo c.tbsp 2 ∧
      c.tspFmt = roundTo c.tsp 2 := by
  constructor
  · rw [convertRow_ok [("All-Purpose Flour", 120)] "All-Purpose Flour" "g" 100 120
      (by decide) (by simp [MenuPlanner.get]) (by norm_num) (by norm_num)]
    have hg : grams "g" 100 120 = 100 := by simp [grams]
    have h1 : roundTo ((100 : ℚ) / 120) 3 = 0.833 := by
      rw [roundTo_eq_of_floor _ 3 833 (by norm_num) (by norm_num [EPSILON])
        (by norm_num [EPSILON])]
      norm_num
    have h2 : roundTo ((100 : ℚ) / 120 * 16) 2 = 13.33 := by
      rw [roundTo_eq_of_floor _ 2 1333 (by norm_num) (by norm_num [EPSILON])
        (by norm_num [EPSILON])]
      norm_num
    have h3 : roundTo ((100 : ℚ) / 120 * 16 * 3) 2 = 40 := by
      rw [roundTo_eq_of_floor _ 2 4000 (by norm_num) (by norm_num [EPSILON])
        (by norm_num [EPSILON])]
      norm_num
    rw [hg, h1, h2, h3]
    norm_num
  · exact convertRow_eq_convertByDensity [("All-Purpose Flour", 120)] "All-Purpose Flour"
      .g 100 120 (by decide) (by simp [MenuPlanner.get]) (by norm_num) (by norm_num)

/-- C16, as stated, fails on a negative density: with a stored density of
-120, an amount of 100 g is converted, to -5/6 cups, and no error is shown. -/
theorem convertRow_negative_density_counterexample :
    MenuPlanner.get [("Flour", (-120 : ℚ))] "Flour" = some (-120) ∧
      convertRow [("Flour", -120)] "Flour" (some 100) "g" =
        .ok ⟨100, -5 / 6, -40 / 3, -40, roundTo (-5 / 6) 3, roundTo (-40 / 3) 2,
          roundTo (-40) 2⟩ := by
  refine ⟨by simp [MenuPlanner.get], ?_⟩
  rw [convertRow_ok [("Flour", -120)] "Flour" "g" 100 (-120)
    (by decide) (by simp [MenuPlanner.get]) (by norm_num) (by norm_num)]
  have hg : grams "g" 100 (-120) = 100 := by simp [grams]
  rw [hg]
  norm_num

/-- C16, amended: `convertRow` shows an error and computes no conversion
whenever no ingredient is picked, the density is absent or zero, the amount is
not a number, or the amount is at most 0; it produces a conversion only when
the density is present and non-zero and the amount is > 0, and it does produce
one whenever an ingredient is picked with density > 0 and amount > 0. -/
theorem convertRow_guards (densities : List (String × ℚ)) (ingredient : String)
    (amount : Option ℚ) (unit : String) :
    (ingredient = "" → convertRow densities ingredient amount unit = .error "Pick ingredient") ∧
    (MenuPlanner.get densities ingredient = none ∨
        MenuPlanner.get densities ingredient = some 0 →
      ∃ msg, convertRow densities ingredient amount unit = .error msg) ∧
    (amount = none ∨ (∃ a, amount = some a ∧ a ≤ 0) →
      ∃ msg, convertRow densities ingredient amount unit = .error msg) ∧
    (∀ c, convertRow densities ingredient amount unit = .ok c →
      ∃ d a, MenuPlanner.get densities ingredient = some d ∧ d ≠ 0 ∧
        amount = some a ∧ 0 < a) ∧
    (∀ d a, ingredient ≠ "" → MenuPlanner.get densities ingredient = some d → 0 < d →
      amount = some a → 0 < a →
      ∃ c, convertRow densities ingredient amount unit = .ok c) := by
  refine ⟨fun h => by simp [convertRow, h], ?_, ?_, ?_, ?_⟩
  · intro h
    by_cases hi : ingredient = ""
    · exact ⟨"Pick ingredient", by simp [convertRow, hi]⟩
    · rcases h with h | h
      · exact ⟨_, by simp only [convertRow, hi, if_false, h]; rfl⟩
      · exact ⟨_, by simp only [convertRow, hi, if_false, h, if_true]; rfl⟩
  · intro h
    by_cases hi : ingredient = ""
    · exact ⟨"Pick ingredient", by simp [convertRow, hi]⟩
    · cases hd : MenuPlanner.get densities ingredient with
      | none => exact ⟨_, by simp only [convertRow, hi, if_false, hd]; rfl⟩
      | some d =>
        by_cases hd0 : d = 0
        · exact ⟨_, by simp only [convertRow, hi, if_false, hd, hd0, if_true]; rfl⟩
        · rcases h with h | ⟨a, h, ha⟩
          · exact ⟨_, by simp only [convertRow, hi, if_false, hd, hd0, h]; rfl⟩
          · exact ⟨_, by simp only [convertRow, hi, if_false, hd, hd0, h, ha, if_true]; rfl⟩
  · intro c hc
    by_cases hi : ingredient = ""
    · simp [convertRow, hi] at hc
    · cases hd : MenuPlanner.get densities ingredient with
      | none => simp [convertRow, hi, hd] at hc
      | some d =>
        by_cases hd0 : d = 0
        · simp [convertRow, hi, hd, hd0] at hc
        · cases ha : amount with
          | none => simp [convertRow, hi, hd, hd0, ha] at hc
          | some a =>
            by_cases hpos : a ≤ 0
            · simp [convertRow, hi, hd, hd0, ha, hpos] at hc
            · exact ⟨d, a, rfl, hd0, rfl, not_le.mp hpos⟩
  · intro d a hi hd hd0 ha hpos
    subst ha
    exact ⟨_, convertRow_ok densities ingredient unit a d hi hd hd0.ne' hpos⟩

/-- C16 at concrete inputs: 100 g of flour converts at density 120, and shows
an error at density 0. -/
theorem convertRow_guards_witness :
    (∃ c, convertRow [("Flour", 120)] "Flour" (some 100) "g" = .ok c) ∧
      ∃ msg, convertRow [("Flour", 0)] "Flour" (some 100) "g" = .error msg :=
  ⟨(convertRow_guards [("Flour", 120)] "Flour" (some 100) "g").2.2.2.2 120 100 (by decide)
      (by simp [MenuPlanner.get]) (by norm_num) rfl (by norm_num),
    (convertRow_guards [("Flour", 0)] "Flour" (some 100) "g").2.1
      (Or.inr (by simp [MenuPlanner.get]))⟩

end Converter

namespace MenuPlanner

/-! ## Shopping list: merging, skipped lines and shopping rows -/

/-- C17, as stated, fails on the blank ingredient name: a line in Pounds and a
line in Ounces, both with an empty name, are skipped and give no entry. -/
theorem computeShoppingData_merge_blank_counterexample :
    family .Pounds = family .Ounces ∧ family .Pounds = .Mass ∧
      computeShoppingData
        [⟨"Bread", "", some 1, .Pounds⟩, ⟨"Bread", "", some 16, .Ounces⟩] 1 = [] := by
  refine ⟨rfl, rfl, ?_⟩
  simp [computeShoppingData, aggStep]

/-- C17, amended: two lines of the same non-blank ingredient, not the name of
an inherited property, with amounts `a` (unit `u1`) and `b` (unit `u2`), where
`u1` and `u2` are different units that are both Mass or both Volume, give
exactly one entry, keyed by the ingredient, in unit `u1`, with total
`a * s + convertAmount (b * s) u2 u1`. -/
theorem computeShoppingData_merge (seats a b : ℚ) (n d1 d2 : String) (u1 u2 : UnitId)
    (hn : n ≠ "") (hp : n ∉ OBJECT_PROTOTYPE_KEYS) (hne : u1 ≠ u2)
    (hf : family u1 = family u2) (hc : family u1 ≠ .Count) :
    ∃ c, convertAmount (b * seats) u2 u1 = some c ∧
      c = b * seats * factor u2 / factor u1 ∧
      computeShoppingData [⟨d1, n, some a, u1⟩, ⟨d2, n, some b, u2⟩] seats =
        [⟨n, a * seats + c, u1⟩] := by
  have hconv : convertAmount (b * seats) u2 u1 = some (b * seats * factor u2 / factor u1) := by
    rw [convertAmount_same_family _ u2 u1 hf.symm (hf ▸ hc),
      if_neg (fun h : u2 = u1 => hne h.symm)]
  refine ⟨_, hconv, rfl, ?_⟩
  simp only [computeShoppingData, List.foldl_cons, List.foldl_nil,
    aggStep_nil seats a n d1 u1 hn hp]
  rw [aggStep_head_merge seats (a * seats) b _ n d2 u1 u2 [] hn hconv]
  simp

/-- C17 at the claim's example: 1 pound followed by 16 ounces, seat multiplier
1, gives 2 pounds. -/
theorem computeShoppingData_merge_witness :
    computeShoppingData
        [⟨"Bread", "Flour", some 1, .Pounds⟩, ⟨"Cake", "Flour", some 16, .Ounces⟩] 1 =
      [⟨"Flour", 2, .Pounds⟩] := by
  obtain ⟨c, -, hc, h⟩ := computeShoppingData_merge 1 1 16 "Flour" "Bread" "Cake"
    .Pounds .Ounces (by decide) (by decide) (by decide) rfl (by decide)
  rw [h, hc]
  norm_num [factor]

/-- A skipped line leaves the object `agg` as it is. -/
theorem aggStep_skip (seats : ℚ) (agg : List (String × AggEntry)) (item : IngredientLine)
    (h : skipped item = true) : aggStep seats agg item = agg := by
  unfold aggStep
  by_cases hi : item.ingredient = ""
  · simp [hi]
  · cases ha : item.amount with
    | none => simp [hi]
    | some a => simp [skipped, hi, ha] at h

/-- Folding a list of lines is folding the lines that are not skipped. -/
theorem foldl_aggStep_filter (seats : ℚ) (lines : List IngredientLine)
    (agg : List (String × AggEntry)) :
    lines.foldl (aggStep seats) agg =
      (lines.filter fun l => !skipped l).foldl (aggStep seats) agg := by
  induction lines generalizing agg with
  | nil => rfl
  | cons l ls ih =>
    cases hv : skipped l with
    | true =>
      rw [List.foldl_cons, aggStep_skip seats agg l hv, List.filter_cons_of_neg (by simp [hv])]
      exact ih agg
    | false =>
      rw [List.foldl_cons, List.filter_cons_of_pos (by simp [hv]), List.foldl_cons]
      exact ih _

/-- C18: a line is skipped exactly when its ingredient name is blank or its
amount is unset; for every list of lines and seat multiplier,
`computeShoppingData` returns what it returns on the list without the skipped
lines; and a line with a non-blank name and amount exactly 0 is not skipped:
alone it yields one entry with total 0, keyed by the name (by the separate
key when the name is that of an inherited property). -/
theorem computeShoppingData_skips (lines : List IngredientLine) (seats : ℚ) :
    (∀ l : IngredientLine, skipped l = true ↔ (l.ingredient = "" ∨ l.amount = none)) ∧
      computeShoppingData lines seats =
        computeShoppingData (lines.filter fun l => !skipped l) seats ∧
      ∀ (d n : String) (u : UnitId), n ≠ "" →
        skipped ⟨d, n, some 0, u⟩ = false ∧
          computeShoppingData [⟨d, n, some 0, u⟩] seats =
            [⟨if n ∈ OBJECT_PROTOTYPE_KEYS then newKey n u else n, 0, u⟩] := by
  refine ⟨fun l => by simp [skipped], ?_, ?_⟩
  · simp only [computeShoppingData]
    rw [foldl_aggStep_filter]
  · intro d n u hn
    refine ⟨by simp [skipped, hn], ?_⟩
    by_cases hp : n ∈ OBJECT_PROTOTYPE_KEYS
    · simp [computeShoppingData, aggStep_nil_inherited seats 0 n d u hn hp, hp]
    · simp [computeShoppingData, aggStep_nil seats 0 n d u hn hp, hp]

/-- C18 at concrete inputs: a nameless line and a line without amount around a
tomato line change nothing, and 0 pounds of salt is one entry with total 0. -/
theorem computeShoppingData_skips_witness :
    computeShoppingData
        [⟨"Salad", "", some 5, .Pounds⟩, ⟨"Salad", "Tomato", some 0.3, .Pounds⟩,
          ⟨"Salad", "Lettuce", none, .Pounds⟩] 4 =
      computeShoppingData [⟨"Salad", "Tomato", some 0.3, .Pounds⟩] 4 ∧
    computeShoppingData [⟨"Salad", "Salt", some 0, .Pounds⟩] 4 = [⟨"Salt", 0, .Pounds⟩] := by
  constructor
  · rw [(computeShoppingData_skips
      [⟨"Salad", "", some 5, .Pounds⟩, ⟨"Salad", "Tomato", some 0.3, .Pounds⟩,
        ⟨"Salad", "Lettuce", none, .Pounds⟩] 4).2.1]
    simp [skipped]
  · have h := ((computeShoppingData_skips [] 4).2.2 "Salad" "Salt" .Pounds (by decide)).2
    rw [h, if_neg (by decide)]

/-- C19 on the code: the single line of 1 cup of `"Brown Sugar (packed)"`
becomes a shopping row whose ingredient field is `"Brown Sugar"`, not the
ingredient name of the line; the name survives as display name only. -/
theorem generateShoppingList_strips_name :
    generateShoppingList [⟨"Cake", "Brown Sugar (packed)", some 1, .Cups⟩] 1 =
      [⟨"Brown Sugar", "Brown Sugar (packed)", 1, .Cups, none, some .Cups, none, true⟩] := by
  have hb : base "Brown Sugar (packed)" = "Brown Sugar" := by decide
  simp [generateShoppingList, computeShoppingData,
    aggStep_nil 1 1 "Brown Sugar (packed)" "Cake" .Cups (by decide) (by decide), hb]

/-- Every key of an object after a write is the key written or a key that was
there. -/
theorem key_of_mem_assign {α β : Type} [DecidableEq α] (m : List (α × β)) (k : α) (v : β)
    (kv : α × β) (h : kv ∈ assign m k v) : kv.1 = k ∨ ∃ kv0 ∈ m, kv0.1 = kv.1 := by
  induction m with
  | nil =>
    simp only [assign, List.mem_singleton] at h
    exact Or.inl (by rw [h])
  | cons e rest ih =>
    obtain ⟨k0, v0⟩ := e
    by_cases hk : k0 = k
    · simp only [assign, hk, if_true, List.mem_cons] at h
      rcases h with h | h
      · exact Or.inl (by rw [h])
      · exact Or.inr ⟨kv, List.mem_cons_of_mem _ h, rfl⟩
    · simp only [assign, hk, if_false, List.mem_cons] at h
      rcases h with h | h
      · exact Or.inr ⟨(k0, v0), List.mem_cons_self _ _, by rw [h]⟩
      · rcases ih h with h1 | ⟨kv0, h1, h2⟩
        · exact Or.inl h1
        · exact Or.inr ⟨kv0, List.mem_cons_of_mem _ h1, h2⟩

/-- Every key of `agg` after a step was there before, or is the name of the
line or its disambiguated key, the line not being skipped. -/
theorem key_of_mem_aggStep (seats : ℚ) (agg : List (String × AggEntry)) (item : IngredientLine)
    (kv : String × AggEntry) (h : kv ∈ aggStep seats agg item) :
    (∃ kv0 ∈ agg, kv0.1 = kv.1) ∨
      (skipped item = false ∧
        (kv.1 = item.ingredient ∨ kv.1 = newKey item.ingredient item.unit)) := by
  cases hs : skipped item with
  | true =>
    rw [aggStep_skip seats agg item hs] at h
    exact Or.inl ⟨kv, h, rfl⟩
  | false =>
    have hi : ¬ item.ingredient = "" := by
      intro hi
      simp [skipped, hi] at hs
    unfold aggStep at h
    simp only [hi, if_false] at h
    repeat' split at h
    all_goals first
      | exact Or.inl ⟨kv, h, rfl⟩
      | rcases key_of_mem_assign _ _ _ _ h with h1 | h1
        · first
          | exact Or.inr ⟨rfl, Or.inl h1⟩
          | exact Or.inr ⟨rfl, Or.inr h1⟩
        · exact Or.inl h1

/-- Every key of `agg` after the fold was there before, or is the name or the
disambiguated key of a line that is not skipped. -/
theorem key_of_mem_foldl (seats : ℚ) (lines : List IngredientLine)
    (agg : List (String × AggEntry)) (kv : String × AggEntry)
    (h : kv ∈ lines.foldl (aggStep seats) agg) :
    (∃ kv0 ∈ agg, kv0.1 = kv.1) ∨
      ∃ l ∈ lines, skipped l = false ∧
        (kv.1 = l.ingredient ∨ kv.1 = newKey l.ingredient l.unit) := by
  induction lines generalizing agg with
  | nil => exact Or.inl ⟨kv, h, rfl⟩
  | cons l ls ih =>
    rw [List.foldl_cons] at h
    rcases ih _ h with ⟨kv0, h0, hk⟩ | ⟨l1, hl1, h1⟩
    · rcases key_of_mem_aggStep seats agg l kv0 h0 with h2 | ⟨h2, h3⟩
      · obtain ⟨kv1, h4, h5⟩ := h2
        exact Or.inl ⟨kv1, h4, h5.trans hk⟩
      · exact Or.inr ⟨l, List.mem_cons_self _ _, h2, by rw [← hk]; exact h3⟩
    · exact Or.inr ⟨l1, List.mem_cons_of_mem _ hl1, h1⟩

/-- In a name without `" ("`, followed by `" ("` and anything, the first
`" ("` is right after the name. -/
theorem indexOf_append (name rest : List Char) (h : indexOf [' ', '('] name = none) :
    indexOf [' ', '('] (name ++ ' ' :: '(' :: rest) = some name.length := by
  induction name with
  | nil => simp [indexOf, List.isPrefixOf]
  | cons c cs ih =>
    simp only [indexOf] at h
    split at h
    · exact absurd h (by simp)
    · rename_i hpre
      have hcs : indexOf [' ', '('] cs = none := by
        cases hc : indexOf [' ', '('] cs with
        | none => rfl
        | some i => simp [hc] at h
      have hpre2 : ¬ List.isPrefixOf [' ', '('] (c :: (cs ++ ' ' :: '(' :: rest)) = true := by
        cases cs with
        | nil =>
          simp [List.isPrefixOf]
        | cons x xs =>
          simpa [List.isPrefixOf] using hpre
      rw [List.cons_append, indexOf, if_neg hpre2, ih hcs]
      rfl

/-- On a name without `" ("`, `base` returns the name, from the name itself
and from its disambiguated key. -/
theorem base_of_plain (name : String) (u : UnitId)
    (h : indexOf [' ', '('] name.data = none) :
    base name = name ∧ base (newKey name u) = name := by
  constructor
  · simp only [base, h]
  · have hd : (newKey name u).data = name.data ++ ' ' :: '(' :: (u.name.data ++ [')']) := by
      simp [newKey, String.data_append]
    simp only [base, hd, indexOf_append name.data _ h, List.take_left']

/-- What the code does for names without `" ("`: every shopping row carries,
in its ingredient field, the ingredient name of a line that was not skipped,
and that name or its disambiguated key as display name. -/
theorem generateShoppingList_plain_names (lines : List IngredientLine) (seats : ℚ)
    (hplain : ∀ l ∈ lines, indexOf [' ', '('] l.ingredient.data = none)
    (row : ShoppingRow) (hrow : row ∈ generateShoppingList lines seats) :
    ∃ l ∈ lines, skipped l = false ∧ row.ingredient = l.ingredient ∧
      (row.displayName = l.ingredient ∨ row.displayName = newKey l.ingredient l.unit) := by
  simp only [generateShoppingList, computeShoppingData, List.map_map, List.mem_map] at hrow
  obtain ⟨kv, hkv, rfl⟩ := hrow
  rcases key_of_mem_foldl seats lines [] kv hkv with ⟨kv0, h0, -⟩ | ⟨l, hl, hs, hk⟩
  · exact absurd h0 (List.not_mem_nil _)
  · have hb := base_of_plain l.ingredient l.unit (hplain l hl)
    refine ⟨l, hl, hs, ?_, ?_⟩
    · rcases hk with hk | hk
      · simp only [Function.comp, hk, hb.1]
      · simp only [Function.comp, hk, hb.2]
    · simpa [Function.comp] using hk

end MenuPlanner
